import Mathlib

/-!
Verification of the libp2p swarm core (engine, controller, TCP address
handling, Kademlia record codec) against its specification.

The development shallowly embeds the Rust sources:

* `Swarm` — `src/libp2p-swarm/src/swarm.rs`: the `SwarmFuture::poll` pass
  (stages 1-7), the submission channels and `SwarmController::dial`.
  Futures, streams and channel receivers are external asynchronous objects;
  each is represented by the list of outcomes its successive polls produce
  (an empty list keeps answering "not ready", matching an object that is
  never ready again).  Opaque payload types (`C::Output`, `Multiaddr`
  tokens, `IoError` values) are represented by `Nat`.
* `Tcp` — `src/libp2p-tcp-transport/src/lib.rs`: `multiaddr_to_socketaddr`,
  `TcpConfig::dial` and `TcpConfig::listen_on`.  The OS-level
  `TcpListener::bind` and `local_addr` are oracles passed as parameters.
* `Proto` — `src/libp2p-kad/src/protobuf_structs/record.rs`: the `Record`
  message, `merge_from` and `write_to_with_cached_sizes`, together with the
  protobuf wire format (varints, length-delimited fields, unknown-field
  side channel) that the generated code delegates to the protobuf runtime.
-/

set_option maxRecDepth 100000

namespace Swarm

/-- `std::io::Error` values are opaque to the engine; a `Nat` token. -/
abbrev Err := Nat

/-- `C::Output`, the upgraded connection handed to the handler; opaque. -/
abbrev Output := Nat

/-- `Multiaddr` values as the engine sees them: opaque tokens. -/
abbrev Addr := Nat

/-- Outcome of polling a `Future<Item = α, Error = IoError>` once. -/
inductive FutPoll (α : Type) where
  | ready (a : α)
  | pending
  | fail (e : Err)
  deriving DecidableEq, Repr

/-- A future is the list of outcomes its successive polls will produce;
once the list is exhausted every further poll answers `pending`. -/
abbrev Fut (α : Type) := List (FutPoll α)

/-- Poll a future once: first scheduled outcome plus the future's
continuation (the mutated future object). -/
def pollFut {α : Type} : Fut α → FutPoll α × Fut α
  | [] => (.pending, [])
  | o :: rest => (o, rest)

/-- Outcome of polling a `Stream<Item = α, Error = IoError>` once:
`Ready(Some item)`, `Ready(None)` (stream exhausted), `NotReady`, `Err`. -/
inductive StrmPoll (α : Type) where
  | item (a : α)
  | eos
  | pending
  | fail (e : Err)
  deriving DecidableEq, Repr

/-- A stream, like a future, is its schedule of poll outcomes. -/
abbrev Strm (α : Type) := List (StrmPoll α)

/-- Poll a stream once. -/
def pollStrm {α : Type} : Strm α → StrmPoll α × Strm α
  | [] => (.pending, [])
  | o :: rest => (o, rest)

/-- The shared state of an `mpsc::unbounded` channel: the queued messages
and whether every sender has been dropped. -/
structure Chan (α : Type) where
  queue : List α
  closed : Bool
  deriving DecidableEq, Repr

/-- Outcome of polling an `UnboundedReceiver` once: one message, or
`Ready(None)` because all senders are gone, or `NotReady`. -/
inductive ChanPoll (α : Type) where
  | item (a : α)
  | closedEnd
  | pending
  deriving DecidableEq, Repr

/-- Poll an unbounded receiver once: buffered messages are delivered one
at a time; only an empty closed channel yields `Ready(None)`. -/
def pollChan {α : Type} : Chan α → ChanPoll α × Chan α
  | ⟨[], false⟩ => (.pending, ⟨[], false⟩)
  | ⟨[], true⟩ => (.closedEnd, ⟨[], true⟩)
  | ⟨a :: q, c⟩ => (.item a, ⟨q, c⟩)

/-- `unbounded_send`: appends to the queue; on a closed channel the send
errors and the message is dropped (the swarm code ignores that error). -/
def chanSend {α : Type} (ch : Chan α) (a : α) : Chan α :=
  if ch.closed then ch else { ch with queue := ch.queue ++ [a] }

/-- `Box<Future<Item = C::Output, Error = IoError>>`: a pending upgrade. -/
abbrev UpgradeFut := Fut Output

/-- One listener accept-stream: a stream of `(upgrade future, address)`. -/
abbrev Listener := Strm (UpgradeFut × Addr)

/-- A handler task (`F : Future<Item = (), Error = IoError>`). -/
abbrev HTask := Fut Unit

/-- `Vec::swap_remove(n)`: removes index `n`, moving the last element into
its place; `none` when `n` is out of bounds (Rust panics there). -/
def swapRemove? {α : Type} (l : List α) (n : Nat) : Option (α × List α) :=
  match l.get? n with
  | none => none
  | some x => some (x, (l.set n ((l.getLast?).getD x)).dropLast)

/-- The state fields of `SwarmFuture` (§4.4).  `incomingSupply` models the
sequence of futures that successive `upgraded.clone().next_incoming()`
calls hand back when `next_incoming` is re-armed. -/
structure SwarmState where
  nextIncoming : Fut (Output × Addr)
  incomingSupply : List (Fut (Output × Addr))
  newListeners : Chan Listener
  newDialers : Chan (UpgradeFut × Addr)
  listeners : List Listener
  listenersUpgrade : List (UpgradeFut × Addr)
  dialers : List (UpgradeFut × Addr)
  toProcess : List HTask
  handler : Output → Addr → HTask

/-- Stage 4 of `SwarmFuture::poll`: `for n in (0..listeners.len()).rev()`,
`swap_remove`, poll once, push back on item/not-ready, drop on exhaustion,
return the error on failure.  Returns the error (if any), the final
`listeners` and `listeners_upgrade` vectors, and the trace of
`(stream polled, outcome)` pairs in poll order. -/
def driveListeners :
    Nat → List Listener → List (UpgradeFut × Addr) →
    List (Listener × StrmPoll (UpgradeFut × Addr)) →
    Option Err × List Listener × List (UpgradeFut × Addr) ×
      List (Listener × StrmPoll (UpgradeFut × Addr))
  | 0, ls, ups, tr => (none, ls, ups, tr)
  | n + 1, ls, ups, tr =>
    match swapRemove? ls n with
    | none => (none, ls, ups, tr)
    | some (listener, rest) =>
      match pollStrm listener with
      | (.item it, l') =>
        driveListeners n (rest ++ [l']) (ups ++ [it]) (tr ++ [(listener, .item it)])
      | (.pending, l') =>
        driveListeners n (rest ++ [l']) ups (tr ++ [(listener, .pending)])
      | (.eos, _) =>
        driveListeners n rest ups (tr ++ [(listener, .eos)])
      | (.fail e, _) =>
        (some e, rest, ups, tr ++ [(listener, .fail e)])

/-- Stages 5 and 6 of `SwarmFuture::poll` (the two loops have identical
bodies): drive each `(future, addr)` pair once; a ready output is handed
to the handler and the produced task is collected in `acc` (the pushes
onto `to_process`).  Returns error, final pair vector, pushed tasks and
the `(pair polled, outcome)` trace. -/
def drivePairs (handler : Output → Addr → HTask) :
    Nat → List (UpgradeFut × Addr) → List HTask →
    List ((UpgradeFut × Addr) × FutPoll Output) →
    Option Err × List (UpgradeFut × Addr) × List HTask ×
      List ((UpgradeFut × Addr) × FutPoll Output)
  | 0, ps, acc, tr => (none, ps, acc, tr)
  | n + 1, ps, acc, tr =>
    match swapRemove? ps n with
    | none => (none, ps, acc, tr)
    | some ((fut, addr), rest) =>
      match pollFut fut with
      | (.ready out, _) =>
        drivePairs handler n rest (acc ++ [handler out addr])
          (tr ++ [((fut, addr), .ready out)])
      | (.pending, f') =>
        drivePairs handler n (rest ++ [(f', addr)]) acc
          (tr ++ [((fut, addr), .pending)])
      | (.fail e, _) =>
        (some e, rest, acc, tr ++ [((fut, addr), .fail e)])

/-- Stage 7 of `SwarmFuture::poll`: drive each handler task once; finished
tasks are dropped, pending ones re-pushed, an error is returned. -/
def driveTasks :
    Nat → List HTask → List (HTask × FutPoll Unit) →
    Option Err × List HTask × List (HTask × FutPoll Unit)
  | 0, tp, tr => (none, tp, tr)
  | n + 1, tp, tr =>
    match swapRemove? tp n with
    | none => (none, tp, tr)
    | some (t, rest) =>
      match pollFut t with
      | (.ready _, _) => driveTasks n rest (tr ++ [(t, .ready ())])
      | (.pending, t') => driveTasks n (rest ++ [t']) (tr ++ [(t, .pending)])
      | (.fail e, _) => (some e, rest, tr ++ [(t, .fail e)])

/-- The value `SwarmFuture::poll` hands its driver:
`Ok(Async::Ready(()))`, `Ok(Async::NotReady)` or `Err(e)`. -/
inductive PollResult where
  | ready
  | notReady
  | failed (e : Err)
  deriving DecidableEq, Repr

instance : DecidableEq (UpgradeFut × Addr) := inferInstance

instance : DecidableEq (StrmPoll (UpgradeFut × Addr)) := inferInstance

instance : DecidableEq Listener := inferInstance

instance : DecidableEq HTask := inferInstance

/-- What one poll pass observed: the stage-1 outcome, the per-stage polled
traces, the upgrades extracted from listeners, and the handler tasks
created (pushed onto `to_process`) during the pass. -/
structure PassTrace where
  incomingPolled : FutPoll (Output × Addr)
  listenerTrace : List (Listener × StrmPoll (UpgradeFut × Addr))
  pushedUpgrades : List (UpgradeFut × Addr)
  upgradeTrace : List ((UpgradeFut × Addr) × FutPoll Output)
  dialerTrace : List ((UpgradeFut × Addr) × FutPoll Output)
  taskTrace : List (HTask × FutPoll Unit)
  created : List HTask
  deriving DecidableEq

/-- The result of one engine poll: the driver-visible result, the engine
state afterwards, and the pass trace. -/
structure PollOut where
  result : PollResult
  state : SwarmState
  trace : PassTrace

/-- Stages 2 and 3 of `SwarmFuture::poll`: poll each submission receiver
once; a delivered item is pushed onto the corresponding vector;
`Ready(None)` (all senders dropped) and `NotReady` change nothing. -/
def intake (s : SwarmState) : SwarmState :=
  let s2 :=
    match pollChan s.newListeners with
    | (.item l, nl') => { s with newListeners := nl', listeners := s.listeners ++ [l] }
    | (_, nl') => { s with newListeners := nl' }
  match pollChan s2.newDialers with
  | (.item d, nd') => { s2 with newDialers := nd', dialers := s2.dialers ++ [d] }
  | (_, nd') => { s2 with newDialers := nd' }

/-- Stages 4-7 of `SwarmFuture::poll`, entered after the intake stages.
`o1` is the stage-1 outcome and `created1` the task (if any) stage 1
pushed, both recorded in the trace. -/
def stages4to7 (s3 : SwarmState) (o1 : FutPoll (Output × Addr))
    (created1 : List HTask) : PollOut :=
  match driveListeners s3.listeners.length s3.listeners s3.listenersUpgrade [] with
  | (e4, ls', ups', ltr) =>
    let s4 := { s3 with listeners := ls', listenersUpgrade := ups' }
    let pushed := ups'.drop s3.listenersUpgrade.length
    match e4 with
    | some e =>
      { result := .failed e, state := s4,
        trace := { incomingPolled := o1, listenerTrace := ltr,
                   pushedUpgrades := pushed, upgradeTrace := [],
                   dialerTrace := [], taskTrace := [], created := created1 } }
    | none =>
      match drivePairs s4.handler s4.listenersUpgrade.length s4.listenersUpgrade [] [] with
      | (e5, ups2, acc5, utr) =>
        let s5 := { s4 with listenersUpgrade := ups2, toProcess := s4.toProcess ++ acc5 }
        match e5 with
        | some e =>
          { result := .failed e, state := s5,
            trace := { incomingPolled := o1, listenerTrace := ltr,
                       pushedUpgrades := pushed, upgradeTrace := utr,
                       dialerTrace := [], taskTrace := [],
                       created := created1 ++ acc5 } }
        | none =>
          match drivePairs s5.handler s5.dialers.length s5.dialers [] [] with
          | (e6, ds2, acc6, dtr) =>
            let s6 := { s5 with dialers := ds2, toProcess := s5.toProcess ++ acc6 }
            match e6 with
            | some e =>
              { result := .failed e, state := s6,
                trace := { incomingPolled := o1, listenerTrace := ltr,
                           pushedUpgrades := pushed, upgradeTrace := utr,
                           dialerTrace := dtr, taskTrace := [],
                           created := created1 ++ acc5 ++ acc6 } }
            | none =>
              match driveTasks s6.toProcess.length s6.toProcess [] with
              | (e7, tp2, ttr) =>
                let s7 := { s6 with toProcess := tp2 }
                let tr : PassTrace :=
                  { incomingPolled := o1, listenerTrace := ltr,
                    pushedUpgrades := pushed, upgradeTrace := utr,
                    dialerTrace := dtr, taskTrace := ttr,
                    created := created1 ++ acc5 ++ acc6 }
                match e7 with
                | some e => { result := .failed e, state := s7, trace := tr }
                | none => { result := .notReady, state := s7, trace := tr }

/-- One full `SwarmFuture::poll` pass (§4.4 stages 1-7).  Stage 1: poll
`next_incoming`; on `Ready((connec, client_addr))` re-arm it from the
upgraded node and push `handler(connec, client_addr)` onto `to_process`;
on error return the error at once. -/
def pollTr (s : SwarmState) : PollOut :=
  match pollFut s.nextIncoming with
  | (.fail e, ni') =>
    { result := .failed e, state := { s with nextIncoming := ni' },
      trace := { incomingPolled := .fail e, listenerTrace := [],
                 pushedUpgrades := [], upgradeTrace := [], dialerTrace := [],
                 taskTrace := [], created := [] } }
  | (.ready (out, addr), _) =>
    stages4to7
      (intake { s with nextIncoming := s.incomingSupply.headD [],
                       incomingSupply := s.incomingSupply.tail,
                       toProcess := s.toProcess ++ [s.handler out addr] })
      (.ready (out, addr)) [s.handler out addr]
  | (.pending, ni') =>
    stages4to7 (intake { s with nextIncoming := ni' }) .pending []

/-- The driver-visible behaviour of `SwarmFuture::poll`. -/
def poll (s : SwarmState) : PollResult × SwarmState :=
  ((pollTr s).result, (pollTr s).state)

/-- Repeatedly poll the engine, as its external driver does: the list of
the `k` results together with the state afterwards. -/
def pollIter : Nat → SwarmState → List PollResult × SwarmState
  | 0, s => ([], s)
  | k + 1, s =>
    ((pollTr s).result :: (pollIter k (pollTr s).state).1,
     (pollIter k (pollTr s).state).2)

/-- Did this future-poll outcome report an error? -/
def futFailB {α : Type} : FutPoll α → Bool
  | .fail _ => true
  | _ => false

/-- Did this stream-poll outcome report an error? -/
def strmFailB {α : Type} : StrmPoll α → Bool
  | .fail _ => true
  | _ => false

/-- No sub-object polled during the pass reported an error. -/
def traceNoError (t : PassTrace) : Bool :=
  !(futFailB t.incomingPolled) &&
  t.listenerTrace.all (fun p => !(strmFailB p.2)) &&
  t.upgradeTrace.all (fun p => !(futFailB p.2)) &&
  t.dialerTrace.all (fun p => !(futFailB p.2)) &&
  t.taskTrace.all (fun p => !(futFailB p.2))

/-- Some sub-object polled during the pass reported the error `e`. -/
def traceHasFail (t : PassTrace) (e : Err) : Prop :=
  t.incomingPolled = .fail e ∨
  (∃ p ∈ t.listenerTrace, p.2 = StrmPoll.fail e) ∨
  (∃ p ∈ t.upgradeTrace, p.2 = FutPoll.fail e) ∨
  (∃ p ∈ t.dialerTrace, p.2 = FutPoll.fail e) ∨
  (∃ p ∈ t.taskTrace, p.2 = FutPoll.fail e)

/-- `SwarmController`: the `upgraded.dial` capability (an oracle:
`some fut` for `Ok(dial)`, `none` for `Err((_, addr))`) plus the sender
side of the `new_dialers` channel. -/
structure Controller where
  dialFn : Addr → Option UpgradeFut
  newDialers : Chan (UpgradeFut × Addr)

/-- `SwarmController::dial`: dial through the upgraded node; on success
submit `(dial, multiaddr)` to `new_dialers`, ignoring a closed receiver;
on failure surface `Err(multiaddr)`. -/
def Controller.dial (c : Controller) (multiaddr : Addr) :
    Except Addr Unit × Controller :=
  match c.dialFn multiaddr with
  | some d => (.ok (), { c with newDialers := chanSend c.newDialers (d, multiaddr) })
  | none => (.error multiaddr, c)

end Swarm

namespace Tcp

/-- `std::io::Error` tokens for the TCP layer. -/
abbrev IoErr := Nat

/-- One multiaddr protocol component with its payload, as stored by the
`multiaddr` crate: `IP4` (code 4, four address bytes), `TCP` (code 6, two
big-endian port bytes), `UDP` (code 17), `IP6` (code 41, sixteen address
bytes). -/
inductive MProto where
  | ip4 (a b c d : Nat)
  | tcp (port : Nat)
  | udp (port : Nat)
  | ip6 (bytes : List Nat)
  deriving DecidableEq, Repr

/-- The protocol tag, as `Multiaddr::protocol()` exposes it. -/
inductive ProtoTag where
  | ip4
  | tcp
  | udp
  | ip6
  deriving DecidableEq, Repr

/-- A multiaddr: an ordered list of protocol components. -/
abbrev Multiaddr := List MProto

def MProto.tag : MProto → ProtoTag
  | .ip4 _ _ _ _ => .ip4
  | .tcp _ => .tcp
  | .udp _ => .udp
  | .ip6 _ => .ip6

/-- The binary encoding of one component: one-byte protocol code followed
by the payload bytes (ports big-endian, as the multiaddr format fixes). -/
def MProto.encode : MProto → List Nat
  | .ip4 a b c d => [4, a, b, c, d]
  | .tcp port => [6, port / 256, port % 256]
  | .udp port => [17, port / 256, port % 256]
  | .ip6 bytes => 41 :: bytes

/-- `Multiaddr::protocol()`: the list of protocol tags. -/
def protocolsOf (addr : Multiaddr) : List ProtoTag := addr.map MProto.tag

/-- `Multiaddr::as_slice()`: the raw byte encoding. -/
def asSlice (addr : Multiaddr) : List Nat := (addr.map MProto.encode).flatten

/-- IP addresses as `std::net::IpAddr`. -/
inductive IpAddr where
  | v4 (a b c d : Nat)
  | v6 (bytes : List Nat)
  deriving DecidableEq, Repr

/-- `std::net::SocketAddr`. -/
structure SocketAddr where
  ip : IpAddr
  port : Nat
  deriving DecidableEq, Repr

/-- `multiaddr_to_socketaddr` (lib.rs lines 140-167).  The function reads
`protocols[0]` and `protocols[1]` — on an address with fewer than two
components Rust's indexing panics, modelled as the outer `none`.  In the
`(IP4, TCP)` arm the socket address is rebuilt from raw slice bytes 1-4
(address) and 6-7 (big-endian port); in the `(IP6, TCP)` arm from slice
bytes 1-16 and 18-19, where the `bytes_to_string`/`parse` round trip of
the sixteen address bytes is the identity.  Every other tag pair is
`Err(())`. -/
def multiaddrToSocketaddr (addr : Multiaddr) : Option (Except Unit SocketAddr) :=
  let protocols := protocolsOf addr
  match protocols.get? 0, protocols.get? 1 with
  | some t0, some t1 =>
    some (match t0, t1 with
      | .ip4, .tcp =>
        let bs := asSlice addr
        .ok ⟨.v4 (bs.getD 1 0) (bs.getD 2 0) (bs.getD 3 0) (bs.getD 4 0),
             (bs.getD 6 0) * 256 + bs.getD 7 0⟩
      | .ip6, .tcp =>
        let bs := asSlice addr
        .ok ⟨.v6 ((bs.drop 1).take 16), (bs.getD 18 0) * 256 + bs.getD 19 0⟩
      | _, _ => .error ())
  | _, _ => none

/-- `TcpConfig::dial` (lib.rs lines 130-136): on a convertible address,
`Ok(TcpStream::connect(&socket_addr, ..))` — the pending connection is
identified by the socket address it connects to; otherwise
`Err((self, addr))` with the address returned unmodified.  The outer
`none` is the conversion panic on a too-short address. -/
def TcpConfig.dial (addr : Multiaddr) : Option (Except Multiaddr SocketAddr) :=
  match multiaddrToSocketaddr addr with
  | some (.ok socketAddr) => some (.ok socketAddr)
  | some (.error ()) => some (.error addr)
  | none => none

/-- `SocketAddr::to_multiaddr()` from the `multiaddr` crate. -/
def socketAddrToMultiaddr (sa : SocketAddr) : Multiaddr :=
  match sa.ip with
  | .v4 a b c d => [.ip4 a b c d, .tcp sa.port]
  | .v6 bytes => [.ip6 bytes, .tcp sa.port]

instance {ε α : Type} [DecidableEq ε] [DecidableEq α] : DecidableEq (Except ε α) :=
  fun x y =>
    match x, y with
    | .ok a, .ok b =>
      if h : a = b then isTrue (by rw [h]) else isFalse (by intro hc; cases hc; exact h rfl)
    | .error a, .error b =>
      if h : a = b then isTrue (by rw [h]) else isFalse (by intro hc; cases hc; exact h rfl)
    | .ok _, .error _ => isFalse (by intro hc; cases hc)
    | .error _, .ok _ => isFalse (by intro hc; cases hc)

/-- What `TcpListener::bind` yields on success: the bound listener,
described by its `local_addr()` result and its stream of accepted
connections (each identified by the peer's socket address). -/
structure BoundListener where
  localAddr : Except Unit SocketAddr
  accepts : List SocketAddr
  deriving DecidableEq, Repr

/-- The listener stream `TcpConfig::listen_on` returns:
`future::result(listener).map(..).flatten_stream()`.  When the bind
failed the wrapped `Err` surfaces as the stream error on the first poll;
otherwise the stream yields `(Ok(sock), peer.to_multiaddr())` items. -/
inductive ListenStream where
  | bindFailed (e : IoErr)
  | accepting (conns : List SocketAddr)
  deriving DecidableEq, Repr

/-- Outcome of the first poll of a `ListenStream`. -/
inductive ListenPoll where
  | errored (e : IoErr)
  | item (peer : SocketAddr) (addr : Multiaddr)
  | pending
  deriving DecidableEq, Repr

/-- First poll of the returned accept-stream. -/
def ListenStream.firstPoll : ListenStream → ListenPoll
  | .bindFailed e => .errored e
  | .accepting [] => .pending
  | .accepting (peer :: _) => .item peer (socketAddrToMultiaddr peer)

/-- `TcpConfig::listen_on` (lib.rs lines 98-125), parameterised by the OS
`bind` oracle.  On a convertible address the bind result is *not*
inspected for the `Ok`/`Err` decision: the returned multiaddr is the
rewritten `local_addr()` address only when bind and `local_addr` both
succeed, and the original `addr` otherwise, while the bind result itself
is deferred into the returned stream. -/
def TcpConfig.listenOn (bind : SocketAddr → Except IoErr BoundListener)
    (addr : Multiaddr) : Option (Except Multiaddr (ListenStream × Multiaddr)) :=
  match multiaddrToSocketaddr addr with
  | some (.ok socketAddr) =>
    let listener := bind socketAddr
    let newAddr :=
      match listener with
      | .ok l =>
        match l.localAddr with
        | .ok sa => socketAddrToMultiaddr sa
        | .error _ => addr
      | .error _ => addr
    let future : ListenStream :=
      match listener with
      | .ok l => .accepting l.accepts
      | .error e => .bindFailed e
    some (.ok (future, newAddr))
  | some (.error ()) => some (.error addr)
  | none => none

end Tcp

namespace Proto

/-- Protobuf base-128 varint encoding, least-significant group first, the
continuation bit set on every byte but the last. -/
def varint (n : Nat) : List Nat :=
  if _ : n < 128 then [n] else (n % 128 + 128) :: varint (n / 128)
termination_by n
decreasing_by exact Nat.div_lt_self (by omega) (by omega)

/-- Read one varint from the front of a buffer: the decoded value and the
remaining bytes; `none` when the buffer ends inside the varint. -/
def readVarint : List Nat → Option (Nat × List Nat)
  | [] => none
  | b :: rest =>
    if b < 128 then some (b, rest)
    else
      match readVarint rest with
      | some (n, rest') => some (b % 128 + 128 * n, rest')
      | none => none

/-- Read a length-delimited payload: a varint length then that many bytes;
`none` on truncation (the runtime's wire error). -/
def readLenPayload (bs : List Nat) : Option (List Nat × List Nat) :=
  match readVarint bs with
  | some (len, rest) =>
    if len ≤ rest.length then some (rest.take len, rest.drop len) else none
  | none => none

/-- Read exactly `k` raw bytes; `none` on truncation. -/
def readBytesN (k : Nat) (bs : List Nat) : Option (List Nat × List Nat) :=
  if k ≤ bs.length then some (bs.take k, bs.drop k) else none

/-- Little-endian value of a byte list. -/
def leVal : List Nat → Nat
  | [] => 0
  | b :: t => b + 256 * leVal t

/-- The four little-endian bytes of a fixed32 value. -/
def fixed32Enc (n : Nat) : List Nat :=
  [n % 256, n / 256 % 256, n / 256 ^ 2 % 256, n / 256 ^ 3 % 256]

/-- The eight little-endian bytes of a fixed64 value. -/
def fixed64Enc (n : Nat) : List Nat :=
  [n % 256, n / 256 % 256, n / 256 ^ 2 % 256, n / 256 ^ 3 % 256,
   n / 256 ^ 4 % 256, n / 256 ^ 5 % 256, n / 256 ^ 6 % 256, n / 256 ^ 7 % 256]

/-- One value in the unknown-field side channel, as the protobuf runtime's
`UnknownValue` stores it: a varint, a fixed64, a length-delimited byte
string, or a fixed32. -/
inductive UnknownValue where
  | varintV (n : Nat)
  | fixed64V (n : Nat)
  | lengthDelimited (bs : List Nat)
  | fixed32V (n : Nat)
  deriving DecidableEq, Repr

/-- The `Record` message (record.rs): five optional fields — `key` (1,
string), `value` (2, bytes), `author` (3, string), `signature` (4, bytes),
`timeReceived` (5, string) — plus the preserved unknown fields in the
order decoding met them.  String payloads are kept as their UTF-8 bytes,
so strings and bytes fields are wire-identical here. -/
structure Record where
  key : Option (List Nat)
  value : Option (List Nat)
  author : Option (List Nat)
  signature : Option (List Nat)
  timeReceived : Option (List Nat)
  unknownFields : List (Nat × UnknownValue)
  deriving DecidableEq, Repr

/-- `Record::new()`: every field unset, no unknown fields. -/
def Record.new : Record :=
  { key := none, value := none, author := none, signature := none,
    timeReceived := none, unknownFields := [] }

/-- Store a decoded length-delimited payload into the field selected by
`merge_from`'s `match field_number` arms 1-5 (the caller guarantees the
number is in 1..5, so the catch-all is arm 5). -/
def setKnown : Nat → List Nat → Record → Record
  | 1, p, r => { r with key := some p }
  | 2, p, r => { r with value := some p }
  | 3, p, r => { r with author := some p }
  | 4, p, r => { r with signature := some p }
  | _, p, r => { r with timeReceived := some p }

/-- Read one wire field and merge it into `r`: the body of one iteration
of `Record::merge_from`'s `while !is.eof()` loop.  The tag is a varint;
field number 0 is a wire error; field numbers 1-5 require the
length-delimited wire type (`read_singular_string_into` /
`read_singular_bytes_into` fail on any other); every other number goes to
`read_unknown_or_skip_group`, which records varint, fixed64,
length-delimited and fixed32 values in the unknown-field side channel.
The group wire types 3 and 4 are modelled as wire errors (the runtime
skips a start-group without preserving it; no claim depends on groups). -/
def readField (r : Record) (bs : List Nat) : Option (Record × List Nat) :=
  match readVarint bs with
  | none => none
  | some (tag, rest) =>
    let fieldNumber := tag / 8
    let wireType := tag % 8
    if fieldNumber = 0 then none
    else if fieldNumber ≤ 5 then
      if wireType = 2 then
        match readLenPayload rest with
        | some (p, rest') => some (setKnown fieldNumber p r, rest')
        | none => none
      else none
    else
      if wireType = 0 then
        match readVarint rest with
        | some (n, rest') =>
          some ({ r with unknownFields := r.unknownFields ++ [(fieldNumber, .varintV n)] }, rest')
        | none => none
      else if wireType = 1 then
        match readBytesN 8 rest with
        | some (p, rest') =>
          some ({ r with unknownFields := r.unknownFields ++ [(fieldNumber, .fixed64V (leVal p))] }, rest')
        | none => none
      else if wireType = 2 then
        match readLenPayload rest with
        | some (p, rest') =>
          some ({ r with unknownFields := r.unknownFields ++ [(fieldNumber, .lengthDelimited p)] }, rest')
        | none => none
      else if wireType = 5 then
        match readBytesN 4 rest with
        | some (p, rest') =>
          some ({ r with unknownFields := r.unknownFields ++ [(fieldNumber, .fixed32V (leVal p))] }, rest')
        | none => none
      else none

theorem readVarint_length {bs : List Nat} {n : Nat} {rest : List Nat}
    (h : readVarint bs = some (n, rest)) : rest.length < bs.length := by
  induction bs generalizing n rest with
  | nil => simp [readVarint] at h
  | cons b t ih =>
    simp only [readVarint] at h
    by_cases hb : b < 128
    · simp only [if_pos hb, Option.some.injEq, Prod.mk.injEq] at h
      obtain ⟨-, h2⟩ := h
      subst h2
      simp
    · simp only [if_neg hb] at h
      cases hr : readVarint t with
      | none => rw [hr] at h; simp at h
      | some p =>
        rw [hr] at h
        obtain ⟨n', rest'⟩ := p
        simp only [Option.some.injEq, Prod.mk.injEq] at h
        obtain ⟨-, h2⟩ := h
        subst h2
        have := ih hr
        simp only [List.length_cons]
        omega

theorem readLenPayload_length {bs p rest' : List Nat}
    (h : readLenPayload bs = some (p, rest')) : rest'.length < bs.length := by
  unfold readLenPayload at h
  cases hv : readVarint bs with
  | none => rw [hv] at h; simp at h
  | some q =>
    rw [hv] at h
    obtain ⟨len, rest⟩ := q
    by_cases hle : len ≤ rest.length
    · simp [hle] at h
      obtain ⟨-, h2⟩ := h
      have := readVarint_length hv
      have : rest'.length ≤ rest.length := by
        rw [← h2]; simp
      omega
    · simp [hle] at h

theorem readBytesN_length {k : Nat} {bs p rest' : List Nat}
    (h : readBytesN k bs = some (p, rest')) : rest'.length ≤ bs.length := by
  unfold readBytesN at h
  by_cases hle : k ≤ bs.length
  · simp [hle] at h
    obtain ⟨-, h2⟩ := h
    rw [← h2]; simp
  · simp [hle] at h

theorem readField_length {r : Record} {bs : List Nat} {r' : Record} {bs' : List Nat}
    (h : readField r bs = some (r', bs')) : bs'.length < bs.length := by
  unfold readField at h
  cases hv : readVarint bs with
  | none => rw [hv] at h; simp at h
  | some q =>
    rw [hv] at h
    obtain ⟨tag, rest⟩ := q
    have hrest := readVarint_length hv
    simp only at h
    split at h
    · simp at h
    · split at h
      · split at h
        · cases hl : readLenPayload rest with
          | none => rw [hl] at h; simp at h
          | some p =>
            rw [hl] at h
            obtain ⟨pl, rest'⟩ := p
            simp at h
            obtain ⟨-, h2⟩ := h
            subst h2
            have := readLenPayload_length hl
            omega
        · simp at h
      · split at h
        · cases hn : readVarint rest with
          | none => rw [hn] at h; simp at h
          | some p =>
            rw [hn] at h
            obtain ⟨n, rest'⟩ := p
            simp at h
            obtain ⟨-, h2⟩ := h
            subst h2
            have := readVarint_length hn
            omega
        · split at h
          · cases hn : readBytesN 8 rest with
            | none => rw [hn] at h; simp at h
            | some p =>
              rw [hn] at h
              obtain ⟨pl, rest'⟩ := p
              simp at h
              obtain ⟨-, h2⟩ := h
              subst h2
              have := readBytesN_length hn
              omega
          · split at h
            · cases hl : readLenPayload rest with
              | none => rw [hl] at h; simp at h
              | some p =>
                rw [hl] at h
                obtain ⟨pl, rest'⟩ := p
                simp at h
                obtain ⟨-, h2⟩ := h
                subst h2
                have := readLenPayload_length hl
                omega
            · split at h
              · cases hn : readBytesN 4 rest with
                | none => rw [hn] at h; simp at h
                | some p =>
                  rw [hn] at h
                  obtain ⟨pl, rest'⟩ := p
                  simp at h
                  obtain ⟨-, h2⟩ := h
                  subst h2
                  have := readBytesN_length hn
                  omega
              · simp at h

/-- `Record::merge_from`: read wire fields until the buffer is exhausted,
merging each into the record; any wire error aborts the decode. -/
def mergeFromAux (r : Record) (bs : List Nat) : Option Record :=
  match bs with
  | [] => some r
  | b :: rest =>
    match h : readField r (b :: rest) with
    | none => none
    | some (r', bs') => mergeFromAux r' bs'
termination_by bs.length
decreasing_by exact readField_length h

/-- Decode a buffer into a fresh record (`parse_from_bytes`). -/
def decodeRecord (bs : List Nat) : Option Record :=
  mergeFromAux Record.new bs

/-- One known field on the wire: tag (wire type 2), varint length,
payload — as `os.write_string` / `os.write_bytes` emit it; an unset field
emits nothing. -/
def writeKnown (fieldNumber : Nat) (v : Option (List Nat)) : List Nat :=
  match v with
  | some p => varint (fieldNumber * 8 + 2) ++ varint p.length ++ p
  | none => []

/-- The wire bytes of one preserved unknown field, as
`os.write_unknown_fields` re-emits it. -/
def encodeUnknown (f : Nat × UnknownValue) : List Nat :=
  match f.2 with
  | .varintV n => varint (f.1 * 8 + 0) ++ varint n
  | .fixed64V n => varint (f.1 * 8 + 1) ++ fixed64Enc n
  | .lengthDelimited p => varint (f.1 * 8 + 2) ++ varint p.length ++ p
  | .fixed32V n => varint (f.1 * 8 + 5) ++ fixed32Enc n

/-- `Record::write_to_with_cached_sizes`: the five known fields in
ascending field number, each only when set, then the preserved unknown
fields. -/
def Record.writeTo (r : Record) : List Nat :=
  writeKnown 1 r.key ++ writeKnown 2 r.value ++ writeKnown 3 r.author ++
  writeKnown 4 r.signature ++ writeKnown 5 r.timeReceived ++
  (r.unknownFields.map encodeUnknown).flatten

end Proto

namespace Swarm

theorem take_set {α : Type} (l : List α) (n : Nat) (v : α) :
    (l.set n v).take n = l.take n := by
  induction l generalizing n with
  | nil => simp
  | cons a t ih =>
    cases n with
    | zero => simp
    | succ m => simp [List.set, List.take, ih]

theorem swapRemove?_some {α : Type} {l : List α} {n : Nat} {x : α} {rest : List α}
    (h : swapRemove? l n = some (x, rest)) :
    l.get? n = some x ∧ rest = (l.set n ((l.getLast?).getD x)).dropLast := by
  unfold swapRemove? at h
  cases hg : l.get? n with
  | none => rw [hg] at h; simp at h
  | some y =>
    rw [hg] at h
    simp only [Option.some.injEq, Prod.mk.injEq] at h
    obtain ⟨h1, h2⟩ := h
    subst h1
    exact ⟨rfl, h2.symm⟩

theorem swapRemove?_of_lt {α : Type} {l : List α} {n : Nat} (h : n < l.length) :
    ∃ x rest, swapRemove? l n = some (x, rest) := by
  unfold swapRemove?
  cases hg : l.get? n with
  | none => rw [List.get?_eq_none] at hg; omega
  | some y => exact ⟨y, _, rfl⟩

theorem swapRemove?_length {α : Type} {l : List α} {n : Nat} {x : α} {rest : List α}
    (h : swapRemove? l n = some (x, rest)) (hn : n < l.length) :
    rest.length = l.length - 1 := by
  obtain ⟨-, h2⟩ := swapRemove?_some h
  subst h2
  simp

theorem swapRemove?_take {α : Type} {l : List α} {n : Nat} {x : α} {rest : List α}
    (h : swapRemove? l n = some (x, rest)) (hn : n < l.length) :
    rest.take n = l.take n := by
  obtain ⟨-, h2⟩ := swapRemove?_some h
  subst h2
  rw [List.dropLast_eq_take, List.take_take]
  have hlen : (l.set n ((l.getLast?).getD x)).length = l.length := by simp
  rw [hlen]
  have hmin : min n (l.length - 1) = n := by omega
  rw [hmin, take_set]

theorem driveListeners_acc (n : Nat) (ls : List Listener)
    (ups : List (UpgradeFut × Addr))
    (tr : List (Listener × StrmPoll (UpgradeFut × Addr))) :
    driveListeners n ls ups tr =
      ((driveListeners n ls [] []).1, (driveListeners n ls [] []).2.1,
       ups ++ (driveListeners n ls [] []).2.2.1,
       tr ++ (driveListeners n ls [] []).2.2.2) := by
  induction n generalizing ls ups tr with
  | zero => simp [driveListeners]
  | succ n ih =>
    cases hsw : swapRemove? ls n with
    | none => simp [driveListeners, hsw]
    | some p =>
      obtain ⟨listener, rest⟩ := p
      rcases hpoll : pollStrm listener with ⟨o, l'⟩
      cases o with
      | item it =>
        simp only [driveListeners, hsw, hpoll, List.nil_append]
        rw [ih (rest ++ [l']) (ups ++ [it]) (tr ++ [(listener, StrmPoll.item it)]),
            ih (rest ++ [l']) [it] [(listener, StrmPoll.item it)]]
        simp
      | pending =>
        simp only [driveListeners, hsw, hpoll, List.nil_append]
        rw [ih (rest ++ [l']) ups (tr ++ [(listener, StrmPoll.pending)]),
            ih (rest ++ [l']) [] [(listener, StrmPoll.pending)]]
        simp
      | eos =>
        simp only [driveListeners, hsw, hpoll, List.nil_append]
        rw [ih rest ups (tr ++ [(listener, StrmPoll.eos)]),
            ih rest [] [(listener, StrmPoll.eos)]]
        simp
      | fail e =>
        simp [driveListeners, hsw, hpoll]

theorem driveListeners_reverse :
    ∀ (n : Nat) (ls : List Listener), n ≤ ls.length →
      (driveListeners n ls [] []).1 = none →
      ((driveListeners n ls [] []).2.2.2).map Prod.fst = (ls.take n).reverse := by
  intro n
  induction n with
  | zero => intro ls _ _; simp [driveListeners]
  | succ n ih =>
    intro ls hn herr
    obtain ⟨x, rest, hsw⟩ := swapRemove?_of_lt (l := ls) (n := n) (by omega)
    have hget := (swapRemove?_some hsw).1
    have hrlen : rest.length = ls.length - 1 := swapRemove?_length hsw (by omega)
    have hrtake : rest.take n = ls.take n := swapRemove?_take hsw (by omega)
    have hgetE : ls[n]? = some x := by
      rw [← List.get?_eq_getElem?]
      exact hget
    have htake : ls.take (n + 1) = ls.take n ++ [x] := by
      rw [List.take_succ, hgetE]
      rfl
    rcases hpoll : pollStrm x with ⟨o, l'⟩
    cases o with
    | item it =>
      rw [driveListeners, hsw] at herr ⊢
      simp only [hpoll, List.nil_append] at herr ⊢
      rw [driveListeners_acc n (rest ++ [l']) [it] [(x, StrmPoll.item it)]] at herr ⊢
      have hlen2 : n ≤ (rest ++ [l']).length := by simp; omega
      have htk2 : (rest ++ [l']).take n = ls.take n := by
        rw [List.take_append_of_le_length (by omega), hrtake]
      simp only at herr
      have := ih (rest ++ [l']) hlen2 herr
      simp only [List.map_append]
      simp [this, htk2, htake]
    | pending =>
      rw [driveListeners, hsw] at herr ⊢
      simp only [hpoll, List.nil_append] at herr ⊢
      rw [driveListeners_acc n (rest ++ [l']) [] [(x, StrmPoll.pending)]] at herr ⊢
      have hlen2 : n ≤ (rest ++ [l']).length := by simp; omega
      have htk2 : (rest ++ [l']).take n = ls.take n := by
        rw [List.take_append_of_le_length (by omega), hrtake]
      simp only at herr
      have := ih (rest ++ [l']) hlen2 herr
      simp only [List.map_append]
      simp [this, htk2, htake]
    | eos =>
      rw [driveListeners, hsw] at herr ⊢
      simp only [hpoll, List.nil_append] at herr ⊢
      rw [driveListeners_acc n rest [] [(x, StrmPoll.eos)]] at herr ⊢
      have hlen2 : n ≤ rest.length := by omega
      simp only at herr
      have := ih rest hlen2 herr
      simp only [List.map_append]
      simp [this, hrtake, htake]
    | fail e =>
      rw [driveListeners, hsw] at herr
      simp only [hpoll] at herr
      simp at herr

theorem driveListeners_fail_elim :
    ∀ (n : Nat) (ls : List Listener) {p : Listener × StrmPoll (UpgradeFut × Addr)} {e : Err},
      p ∈ (driveListeners n ls [] []).2.2.2 → p.2 = StrmPoll.fail e →
      (driveListeners n ls [] []).1 = some e := by
  intro n
  induction n with
  | zero => intro ls p e hp _; simp [driveListeners] at hp
  | succ n ih =>
    intro ls p e hp hfail
    cases hsw : swapRemove? ls n with
    | none =>
      rw [driveListeners, hsw] at hp
      simp at hp
    | some q =>
      obtain ⟨x, rest⟩ := q
      rcases hpoll : pollStrm x with ⟨o, l'⟩
      cases o with
      | item it =>
        rw [driveListeners, hsw] at hp ⊢
        simp only [hpoll, List.nil_append] at hp ⊢
        rw [driveListeners_acc n (rest ++ [l']) [it] [(x, StrmPoll.item it)]] at hp ⊢
        simp only [List.mem_append, List.mem_singleton] at hp
        rcases hp with hp | hp
        · rw [hp] at hfail; simp at hfail
        · exact ih (rest ++ [l']) hp hfail
      | pending =>
        rw [driveListeners, hsw] at hp ⊢
        simp only [hpoll, List.nil_append] at hp ⊢
        rw [driveListeners_acc n (rest ++ [l']) [] [(x, StrmPoll.pending)]] at hp ⊢
        simp only [List.mem_append, List.mem_singleton] at hp
        rcases hp with hp | hp
        · rw [hp] at hfail; simp at hfail
        · exact ih (rest ++ [l']) hp hfail
      | eos =>
        rw [driveListeners, hsw] at hp ⊢
        simp only [hpoll, List.nil_append] at hp ⊢
        rw [driveListeners_acc n rest [] [(x, StrmPoll.eos)]] at hp ⊢
        simp only [List.mem_append, List.mem_singleton] at hp
        rcases hp with hp | hp
        · rw [hp] at hfail; simp at hfail
        · exact ih rest hp hfail
      | fail e' =>
        rw [driveListeners, hsw] at hp ⊢
        simp only [hpoll, List.nil_append] at hp ⊢
        simp only [List.mem_singleton] at hp
        rw [hp] at hfail
        simp at hfail
        rw [hfail]

theorem driveListeners_fail_intro :
    ∀ (n : Nat) (ls : List Listener) {e : Err},
      (driveListeners n ls [] []).1 = some e →
      ∃ p ∈ (driveListeners n ls [] []).2.2.2, p.2 = StrmPoll.fail e := by
  intro n
  induction n with
  | zero => intro ls e h; simp [driveListeners] at h
  | succ n ih =>
    intro ls e h
    cases hsw : swapRemove? ls n with
    | none =>
      rw [driveListeners, hsw] at h
      simp at h
    | some q =>
      obtain ⟨x, rest⟩ := q
      rcases hpoll : pollStrm x with ⟨o, l'⟩
      cases o with
      | item it =>
        rw [driveListeners, hsw] at h ⊢
        simp only [hpoll, List.nil_append] at h ⊢
        rw [driveListeners_acc n (rest ++ [l']) [it] [(x, StrmPoll.item it)]] at h ⊢
        simp only at h
        obtain ⟨p, hp, hf⟩ := ih (rest ++ [l']) h
        exact ⟨p, by simp [hp], hf⟩
      | pending =>
        rw [driveListeners, hsw] at h ⊢
        simp only [hpoll, List.nil_append] at h ⊢
        rw [driveListeners_acc n (rest ++ [l']) [] [(x, StrmPoll.pending)]] at h ⊢
        simp only at h
        obtain ⟨p, hp, hf⟩ := ih (rest ++ [l']) h
        exact ⟨p, by simp [hp], hf⟩
      | eos =>
        rw [driveListeners, hsw] at h ⊢
        simp only [hpoll, List.nil_append] at h ⊢
        rw [driveListeners_acc n rest [] [(x, StrmPoll.eos)]] at h ⊢
        simp only at h
        obtain ⟨p, hp, hf⟩ := ih rest h
        exact ⟨p, by simp [hp], hf⟩
      | fail e' =>
        rw [driveListeners, hsw] at h ⊢
        simp only [hpoll, List.nil_append] at h ⊢
        simp only [Option.some.injEq] at h
        exact ⟨(x, StrmPoll.fail e'), by simp, by rw [h]⟩

theorem drivePairs_acc (handler : Output → Addr → HTask) (n : Nat)
    (ps : List (UpgradeFut × Addr)) (acc : List HTask)
    (tr : List ((UpgradeFut × Addr) × FutPoll Output)) :
    drivePairs handler n ps acc tr =
      ((drivePairs handler n ps [] []).1, (drivePairs handler n ps [] []).2.1,
       acc ++ (drivePairs handler n ps [] []).2.2.1,
       tr ++ (drivePairs handler n ps [] []).2.2.2) := by
  induction n generalizing ps acc tr with
  | zero => simp [drivePairs]
  | succ n ih =>
    cases hsw : swapRemove? ps n with
    | none => simp [drivePairs, hsw]
    | some p =>
      obtain ⟨⟨fut, addr⟩, rest⟩ := p
      rcases hpoll : pollFut fut with ⟨o, f'⟩
      cases o with
      | ready out =>
        simp only [drivePairs, hsw, hpoll, List.nil_append]
        rw [ih rest (acc ++ [handler out addr]) (tr ++ [((fut, addr), FutPoll.ready out)]),
            ih rest [handler out addr] [((fut, addr), FutPoll.ready out)]]
        simp
      | pending =>
        simp only [drivePairs, hsw, hpoll, List.nil_append]
        rw [ih (rest ++ [(f', addr)]) acc (tr ++ [((fut, addr), FutPoll.pending)]),
            ih (rest ++ [(f', addr)]) [] [((fut, addr), FutPoll.pending)]]
        simp
      | fail e =>
        simp [drivePairs, hsw, hpoll]

theorem drivePairs_reverse (handler : Output → Addr → HTask) :
    ∀ (n : Nat) (ps : List (UpgradeFut × Addr)), n ≤ ps.length →
      (drivePairs handler n ps [] []).1 = none →
      ((drivePairs handler n ps [] []).2.2.2).map Prod.fst = (ps.take n).reverse := by
  intro n
  induction n with
  | zero => intro ps _ _; simp [drivePairs]
  | succ n ih =>
    intro ps hn herr
    obtain ⟨x, rest, hsw⟩ := swapRemove?_of_lt (l := ps) (n := n) (by omega)
    have hget := (swapRemove?_some hsw).1
    have hrlen : rest.length = ps.length - 1 := swapRemove?_length hsw (by omega)
    have hrtake : rest.take n = ps.take n := swapRemove?_take hsw (by omega)
    have hgetE : ps[n]? = some x := by
      rw [← List.get?_eq_getElem?]
      exact hget
    have htake : ps.take (n + 1) = ps.take n ++ [x] := by
      rw [List.take_succ, hgetE]
      rfl
    obtain ⟨fut, addr⟩ := x
    rcases hpoll : pollFut fut with ⟨o, f'⟩
    cases o with
    | ready out =>
      rw [drivePairs, hsw] at herr ⊢
      simp only [hpoll, List.nil_append] at herr ⊢
      rw [drivePairs_acc handler n rest [handler out addr]
            [((fut, addr), FutPoll.ready out)]] at herr ⊢
      have hlen2 : n ≤ rest.length := by omega
      simp only at herr
      have := ih rest hlen2 herr
      simp only [List.map_append]
      simp [this, hrtake, htake]
    | pending =>
      rw [drivePairs, hsw] at herr ⊢
      simp only [hpoll, List.nil_append] at herr ⊢
      rw [drivePairs_acc handler n (rest ++ [(f', addr)]) []
            [((fut, addr), FutPoll.pending)]] at herr ⊢
      have hlen2 : n ≤ (rest ++ [(f', addr)]).length := by simp; omega
      have htk2 : (rest ++ [(f', addr)]).take n = ps.take n := by
        rw [List.take_append_of_le_length (by omega), hrtake]
      simp only at herr
      have := ih (rest ++ [(f', addr)]) hlen2 herr
      simp only [List.map_append]
      simp [this, htk2, htake]
    | fail e =>
      rw [drivePairs, hsw] at herr
      simp only [hpoll, List.nil_append] at herr
      simp at herr

theorem drivePairs_fail_elim (handler : Output → Addr → HTask) :
    ∀ (n : Nat) (ps : List (UpgradeFut × Addr))
      {p : (UpgradeFut × Addr) × FutPoll Output} {e : Err},
      p ∈ (drivePairs handler n ps [] []).2.2.2 → p.2 = FutPoll.fail e →
      (drivePairs handler n ps [] []).1 = some e := by
  intro n
  induction n with
  | zero => intro ps p e hp _; simp [drivePairs] at hp
  | succ n ih =>
    intro ps p e hp hfail
    cases hsw : swapRemove? ps n with
    | none =>
      rw [drivePairs, hsw] at hp
      simp at hp
    | some q =>
      obtain ⟨⟨fut, addr⟩, rest⟩ := q
      rcases hpoll : pollFut fut with ⟨o, f'⟩
      cases o with
      | ready out =>
        rw [drivePairs, hsw] at hp ⊢
        simp only [hpoll, List.nil_append] at hp ⊢
        rw [drivePairs_acc handler n rest [handler out addr]
              [((fut, addr), FutPoll.ready out)]] at hp ⊢
        simp only [List.mem_append, List.mem_singleton] at hp
        rcases hp with hp | hp
        · rw [hp] at hfail; simp at hfail
        · exact ih rest hp hfail
      | pending =>
        rw [drivePairs, hsw] at hp ⊢
        simp only [hpoll, List.nil_append] at hp ⊢
        rw [drivePairs_acc handler n (rest ++ [(f', addr)]) []
              [((fut, addr), FutPoll.pending)]] at hp ⊢
        simp only [List.mem_append, List.mem_singleton] at hp
        rcases hp with hp | hp
        · rw [hp] at hfail; simp at hfail
        · exact ih (rest ++ [(f', addr)]) hp hfail
      | fail e' =>
        rw [drivePairs, hsw] at hp ⊢
        simp only [hpoll, List.nil_append] at hp ⊢
        simp only [List.mem_singleton] at hp
        rw [hp] at hfail
        simp at hfail
        rw [hfail]

theorem drivePairs_fail_intro (handler : Output → Addr → HTask) :
    ∀ (n : Nat) (ps : List (UpgradeFut × Addr)) {e : Err},
      (drivePairs handler n ps [] []).1 = some e →
      ∃ p ∈ (drivePairs handler n ps [] []).2.2.2, p.2 = FutPoll.fail e := by
  intro n
  induction n with
  | zero => intro ps e h; simp [drivePairs] at h
  | succ n ih =>
    intro ps e h
    cases hsw : swapRemove? ps n with
    | none =>
      rw [drivePairs, hsw] at h
      simp at h
    | some q =>
      obtain ⟨⟨fut, addr⟩, rest⟩ := q
      rcases hpoll : pollFut fut with ⟨o, f'⟩
      cases o with
      | ready out =>
        rw [drivePairs, hsw] at h ⊢
        simp only [hpoll, List.nil_append] at h ⊢
        rw [drivePairs_acc handler n rest [handler out addr]
              [((fut, addr), FutPoll.ready out)]] at h ⊢
        simp only at h
        obtain ⟨p, hp, hf⟩ := ih rest h
        exact ⟨p, by simp [hp], hf⟩
      | pending =>
        rw [drivePairs, hsw] at h ⊢
        simp only [hpoll, List.nil_append] at h ⊢
        rw [drivePairs_acc handler n (rest ++ [(f', addr)]) []
              [((fut, addr), FutPoll.pending)]] at h ⊢
        simp only at h
        obtain ⟨p, hp, hf⟩ := ih (rest ++ [(f', addr)]) h
        exact ⟨p, by simp [hp], hf⟩
      | fail e' =>
        rw [drivePairs, hsw] at h ⊢
        simp only [hpoll, List.nil_append] at h ⊢
        simp only [Option.some.injEq] at h
        exact ⟨((fut, addr), FutPoll.fail e'), by simp, by rw [h]⟩

theorem driveTasks_acc (n : Nat) (tp : List HTask)
    (tr : List (HTask × FutPoll Unit)) :
    driveTasks n tp tr =
      ((driveTasks n tp []).1, (driveTasks n tp []).2.1,
       tr ++ (driveTasks n tp []).2.2) := by
  induction n generalizing tp tr with
  | zero => simp [driveTasks]
  | succ n ih =>
    cases hsw : swapRemove? tp n with
    | none => simp [driveTasks, hsw]
    | some p =>
      obtain ⟨t, rest⟩ := p
      rcases hpoll : pollFut t with ⟨o, t'⟩
      cases o with
      | ready u =>
        simp only [driveTasks, hsw, hpoll, List.nil_append]
        rw [ih rest (tr ++ [(t, FutPoll.ready u)]), ih rest [(t, FutPoll.ready u)]]
        simp
      | pending =>
        simp only [driveTasks, hsw, hpoll, List.nil_append]
        rw [ih (rest ++ [t']) (tr ++ [(t, FutPoll.pending)]),
            ih (rest ++ [t']) [(t, FutPoll.pending)]]
        simp
      | fail e =>
        simp [driveTasks, hsw, hpoll]

theorem driveTasks_reverse :
    ∀ (n : Nat) (tp : List HTask), n ≤ tp.length →
      (driveTasks n tp []).1 = none →
      ((driveTasks n tp []).2.2).map Prod.fst = (tp.take n).reverse := by
  intro n
  induction n with
  | zero => intro tp _ _; simp [driveTasks]
  | succ n ih =>
    intro tp hn herr
    obtain ⟨x, rest, hsw⟩ := swapRemove?_of_lt (l := tp) (n := n) (by omega)
    have hget := (swapRemove?_some hsw).1
    have hrlen : rest.length = tp.length - 1 := swapRemove?_length hsw (by omega)
    have hrtake : rest.take n = tp.take n := swapRemove?_take hsw (by omega)
    have hgetE : tp[n]? = some x := by
      rw [← List.get?_eq_getElem?]
      exact hget
    have htake : tp.take (n + 1) = tp.take n ++ [x] := by
      rw [List.take_succ, hgetE]
      rfl
    rcases hpoll : pollFut x with ⟨o, t'⟩
    cases o with
    | ready u =>
      rw [driveTasks, hsw] at herr ⊢
      simp only [hpoll, List.nil_append] at herr ⊢
      rw [driveTasks_acc n rest [(x, FutPoll.ready u)]] at herr ⊢
      have hlen2 : n ≤ rest.length := by omega
      simp only at herr
      have := ih rest hlen2 herr
      simp only [List.map_append]
      simp [this, hrtake, htake]
    | pending =>
      rw [driveTasks, hsw] at herr ⊢
      simp only [hpoll, List.nil_append] at herr ⊢
      rw [driveTasks_acc n (rest ++ [t']) [(x, FutPoll.pending)]] at herr ⊢
      have hlen2 : n ≤ (rest ++ [t']).length := by simp; omega
      have htk2 : (rest ++ [t']).take n = tp.take n := by
        rw [List.take_append_of_le_length (by omega), hrtake]
      simp only at herr
      have := ih (rest ++ [t']) hlen2 herr
      simp only [List.map_append]
      simp [this, htk2, htake]
    | fail e =>
      rw [driveTasks, hsw] at herr
      simp only [hpoll, List.nil_append] at herr
      simp at herr

theorem driveTasks_fail_elim :
    ∀ (n : Nat) (tp : List HTask) {p : HTask × FutPoll Unit} {e : Err},
      p ∈ (driveTasks n tp []).2.2 → p.2 = FutPoll.fail e →
      (driveTasks n tp []).1 = some e := by
  intro n
  induction n with
  | zero => intro tp p e hp _; simp [driveTasks] at hp
  | succ n ih =>
    intro tp p e hp hfail
    cases hsw : swapRemove? tp n with
    | none =>
      rw [driveTasks, hsw] at hp
      simp at hp
    | some q =>
      obtain ⟨t, rest⟩ := q
      rcases hpoll : pollFut t with ⟨o, t'⟩
      cases o with
      | ready u =>
        rw [driveTasks, hsw] at hp ⊢
        simp only [hpoll, List.nil_append] at hp ⊢
        rw [driveTasks_acc n rest [(t, FutPoll.ready u)]] at hp ⊢
        simp only [List.mem_append, List.mem_singleton] at hp
        rcases hp with hp | hp
        · rw [hp] at hfail; simp at hfail
        · exact ih rest hp hfail
      | pending =>
        rw [driveTasks, hsw] at hp ⊢
        simp only [hpoll, List.nil_append] at hp ⊢
        rw [driveTasks_acc n (rest ++ [t']) [(t, FutPoll.pending)]] at hp ⊢
        simp only [List.mem_append, List.mem_singleton] at hp
        rcases hp with hp | hp
        · rw [hp] at hfail; simp at hfail
        · exact ih (rest ++ [t']) hp hfail
      | fail e' =>
        rw [driveTasks, hsw] at hp ⊢
        simp only [hpoll, List.nil_append] at hp ⊢
        simp only [List.mem_singleton] at hp
        rw [hp] at hfail
        simp at hfail
        rw [hfail]

theorem driveTasks_fail_intro :
    ∀ (n : Nat) (tp : List HTask) {e : Err},
      (driveTasks n tp []).1 = some e →
      ∃ p ∈ (driveTasks n tp []).2.2, p.2 = FutPoll.fail e := by
  intro n
  induction n with
  | zero => intro tp e h; simp [driveTasks] at h
  | succ n ih =>
    intro tp e h
    cases hsw : swapRemove? tp n with
    | none =>
      rw [driveTasks, hsw] at h
      simp at h
    | some q =>
      obtain ⟨t, rest⟩ := q
      rcases hpoll : pollFut t with ⟨o, t'⟩
      cases o with
      | ready u =>
        rw [driveTasks, hsw] at h ⊢
        simp only [hpoll, List.nil_append] at h ⊢
        rw [driveTasks_acc n rest [(t, FutPoll.ready u)]] at h ⊢
        simp only at h
        obtain ⟨p, hp, hf⟩ := ih rest h
        exact ⟨p, by simp [hp], hf⟩
      | pending =>
        rw [driveTasks, hsw] at h ⊢
        simp only [hpoll, List.nil_append] at h ⊢
        rw [driveTasks_acc n (rest ++ [t']) [(t, FutPoll.pending)]] at h ⊢
        simp only at h
        obtain ⟨p, hp, hf⟩ := ih (rest ++ [t']) h
        exact ⟨p, by simp [hp], hf⟩
      | fail e' =>
        rw [driveTasks, hsw] at h ⊢
        simp only [hpoll, List.nil_append] at h ⊢
        simp only [Option.some.injEq] at h
        exact ⟨(t, FutPoll.fail e'), by simp, by rw [h]⟩

theorem intake_eq (s : SwarmState) :
    intake s = { s with
      listeners := s.listeners ++ s.newListeners.queue.take 1,
      dialers := s.dialers ++ s.newDialers.queue.take 1,
      newListeners := ⟨s.newListeners.queue.drop 1, s.newListeners.closed⟩,
      newDialers := ⟨s.newDialers.queue.drop 1, s.newDialers.closed⟩ } := by
  rcases s with ⟨ni, sup, ⟨lq, lc⟩, ⟨dq, dc⟩, ls, lu, dl, tp, hd⟩
  cases lq <;> cases lc <;> cases dq <;> cases dc <;> simp [intake, pollChan]

theorem stages4to7_spec (s3 : SwarmState) (o1 : FutPoll (Output × Addr)) (cr : List HTask)
    (h : (stages4to7 s3 o1 cr).result = PollResult.notReady) :
    (stages4to7 s3 o1 cr).trace.incomingPolled = o1 ∧
    (stages4to7 s3 o1 cr).trace.listenerTrace.map Prod.fst = s3.listeners.reverse ∧
    (stages4to7 s3 o1 cr).trace.upgradeTrace.map Prod.fst =
      (s3.listenersUpgrade ++ (stages4to7 s3 o1 cr).trace.pushedUpgrades).reverse ∧
    (stages4to7 s3 o1 cr).trace.dialerTrace.map Prod.fst = s3.dialers.reverse ∧
    (∃ acc5 acc6,
      (stages4to7 s3 o1 cr).trace.created = cr ++ acc5 ++ acc6 ∧
      (stages4to7 s3 o1 cr).trace.taskTrace.map Prod.fst =
        ((s3.toProcess ++ acc5) ++ acc6).reverse) ∧
    (stages4to7 s3 o1 cr).state.newListeners = s3.newListeners ∧
    (stages4to7 s3 o1 cr).state.newDialers = s3.newDialers := by
  rcases h4 : driveListeners s3.listeners.length s3.listeners [] [] with ⟨e4, ls4, ups4, ltr4⟩
  unfold stages4to7 at h ⊢
  rw [driveListeners_acc, h4] at h ⊢
  simp only [List.nil_append] at h ⊢
  cases e4 with
  | some e => simp at h
  | none =>
    rcases h5 : drivePairs s3.handler (s3.listenersUpgrade ++ ups4).length
        (s3.listenersUpgrade ++ ups4) [] [] with ⟨e5, ups5, acc5, utr5⟩
    simp only [h5] at h ⊢
    cases e5 with
    | some e => simp at h
    | none =>
      rcases h6 : drivePairs s3.handler s3.dialers.length s3.dialers [] []
        with ⟨e6, ds6, acc6, dtr6⟩
      simp only [h6] at h ⊢
      cases e6 with
      | some e => simp at h
      | none =>
        rcases h7 : driveTasks ((s3.toProcess ++ acc5) ++ acc6).length
            ((s3.toProcess ++ acc5) ++ acc6) [] with ⟨e7, tp7, ttr7⟩
        simp only [h7] at h ⊢
        cases e7 with
        | some e => simp at h
        | none =>
          refine ⟨rfl, ?_, ?_, ?_, ⟨acc5, acc6, rfl, ?_⟩, rfl, rfl⟩
          · have := driveListeners_reverse s3.listeners.length s3.listeners
              (le_refl _) (by rw [h4])
            rw [h4] at this
            simpa using this
          · have := drivePairs_reverse s3.handler (s3.listenersUpgrade ++ ups4).length
              (s3.listenersUpgrade ++ ups4) (le_refl _) (by rw [h5])
            rw [h5] at this
            simp only [List.take_length] at this
            simpa [List.drop_left] using this
          · have := drivePairs_reverse s3.handler s3.dialers.length s3.dialers
              (le_refl _) (by rw [h6])
            rw [h6] at this
            simpa using this
          · have := driveTasks_reverse ((s3.toProcess ++ acc5) ++ acc6).length
              ((s3.toProcess ++ acc5) ++ acc6) (le_refl _) (by rw [h7])
            rw [h7] at this
            simp only [List.take_length] at this
            simpa using this

theorem stages4to7_noError (s3 : SwarmState) (o1 : FutPoll (Output × Addr)) (cr : List HTask)
    (h : traceNoError (stages4to7 s3 o1 cr).trace = true) :
    (stages4to7 s3 o1 cr).result = PollResult.notReady := by
  rcases h4 : driveListeners s3.listeners.length s3.listeners [] [] with ⟨e4, ls4, ups4, ltr4⟩
  unfold stages4to7 at h ⊢
  rw [driveListeners_acc, h4] at h ⊢
  simp only [List.nil_append] at h ⊢
  cases e4 with
  | some e =>
    exfalso
    obtain ⟨p, hp, hf⟩ := driveListeners_fail_intro s3.listeners.length s3.listeners (by rw [h4])
    rw [h4] at hp
    simp only [traceNoError] at h
    simp only [Bool.and_eq_true, List.all_eq_true] at h
    have := h.1.1.1.2 p hp
    rw [hf] at this
    simp [strmFailB] at this
  | none =>
    rcases h5 : drivePairs s3.handler (s3.listenersUpgrade ++ ups4).length
        (s3.listenersUpgrade ++ ups4) [] [] with ⟨e5, ups5, acc5, utr5⟩
    simp only [h5] at h ⊢
    cases e5 with
    | some e =>
      exfalso
      obtain ⟨p, hp, hf⟩ := drivePairs_fail_intro s3.handler (s3.listenersUpgrade ++ ups4).length
        (s3.listenersUpgrade ++ ups4) (by rw [h5])
      rw [h5] at hp
      simp only [traceNoError] at h
      simp only [Bool.and_eq_true, List.all_eq_true] at h
      have := h.1.1.2 p hp
      rw [hf] at this
      simp [futFailB] at this
    | none =>
      rcases h6 : drivePairs s3.handler s3.dialers.length s3.dialers [] []
        with ⟨e6, ds6, acc6, dtr6⟩
      simp only [h6] at h ⊢
      cases e6 with
      | some e =>
        exfalso
        obtain ⟨p, hp, hf⟩ := drivePairs_fail_intro s3.handler s3.dialers.length
          s3.dialers (by rw [h6])
        rw [h6] at hp
        simp only [traceNoError] at h
        simp only [Bool.and_eq_true, List.all_eq_true] at h
        have := h.1.2 p hp
        rw [hf] at this
        simp [futFailB] at this
      | none =>
        rcases h7 : driveTasks ((s3.toProcess ++ acc5) ++ acc6).length
            ((s3.toProcess ++ acc5) ++ acc6) [] with ⟨e7, tp7, ttr7⟩
        simp only [h7] at h ⊢
        cases e7 with
        | some e =>
          exfalso
          obtain ⟨p, hp, hf⟩ := driveTasks_fail_intro ((s3.toProcess ++ acc5) ++ acc6).length
            ((s3.toProcess ++ acc5) ++ acc6) (by rw [h7])
          rw [h7] at hp
          simp only [traceNoError] at h
          simp only [Bool.and_eq_true, List.all_eq_true] at h
          have := h.2 p hp
          rw [hf] at this
          simp [futFailB] at this
        | none => rfl

theorem stages4to7_hasFail (s3 : SwarmState) (o1 : FutPoll (Output × Addr)) (cr : List HTask)
    (e : Err) (ho1 : ∀ e', o1 ≠ FutPoll.fail e')
    (h : traceHasFail (stages4to7 s3 o1 cr).trace e) :
    (stages4to7 s3 o1 cr).result = PollResult.failed e := by
  rcases h4 : driveListeners s3.listeners.length s3.listeners [] [] with ⟨e4, ls4, ups4, ltr4⟩
  unfold stages4to7 at h ⊢
  rw [driveListeners_acc, h4] at h ⊢
  simp only [List.nil_append] at h ⊢
  cases e4 with
  | some e' =>
    simp only [traceHasFail] at h
    rcases h with h | h | h | h | h
    · exact absurd h (ho1 e)
    · obtain ⟨p, hp, hf⟩ := h
      have := driveListeners_fail_elim s3.listeners.length s3.listeners (by rw [h4]; exact hp) hf
      rw [h4] at this
      simp only [Option.some.injEq] at this
      rw [this]
    · simp at h
    · simp at h
    · simp at h
  | none =>
    rcases h5 : drivePairs s3.handler (s3.listenersUpgrade ++ ups4).length
        (s3.listenersUpgrade ++ ups4) [] [] with ⟨e5, ups5, acc5, utr5⟩
    simp only [h5] at h ⊢
    cases e5 with
    | some e' =>
      simp only [traceHasFail] at h
      rcases h with h | h | h | h | h
      · exact absurd h (ho1 e)
      · obtain ⟨p, hp, hf⟩ := h
        have := driveListeners_fail_elim s3.listeners.length s3.listeners
          (by rw [h4]; exact hp) hf
        rw [h4] at this
        simp at this
      · obtain ⟨p, hp, hf⟩ := h
        have := drivePairs_fail_elim s3.handler (s3.listenersUpgrade ++ ups4).length
          (s3.listenersUpgrade ++ ups4) (by rw [h5]; exact hp) hf
        rw [h5] at this
        simp only [Option.some.injEq] at this
        rw [this]
      · simp at h
      · simp at h
    | none =>
      rcases h6 : drivePairs s3.handler s3.dialers.length s3.dialers [] []
        with ⟨e6, ds6, acc6, dtr6⟩
      simp only [h6] at h ⊢
      cases e6 with
      | some e' =>
        simp only [traceHasFail] at h
        rcases h with h | h | h | h | h
        · exact absurd h (ho1 e)
        · obtain ⟨p, hp, hf⟩ := h
          have := driveListeners_fail_elim s3.listeners.length s3.listeners
            (by rw [h4]; exact hp) hf
          rw [h4] at this
          simp at this
        · obtain ⟨p, hp, hf⟩ := h
          have := drivePairs_fail_elim s3.handler (s3.listenersUpgrade ++ ups4).length
            (s3.listenersUpgrade ++ ups4) (by rw [h5]; exact hp) hf
          rw [h5] at this
          simp at this
        · obtain ⟨p, hp, hf⟩ := h
          have := drivePairs_fail_elim s3.handler s3.dialers.length s3.dialers
            (by rw [h6]; exact hp) hf
          rw [h6] at this
          simp only [Option.some.injEq] at this
          rw [this]
        · simp at h
      | none =>
        rcases h7 : driveTasks ((s3.toProcess ++ acc5) ++ acc6).length
            ((s3.toProcess ++ acc5) ++ acc6) [] with ⟨e7, tp7, ttr7⟩
        simp only [h7] at h ⊢
        cases e7 with
        | some e' =>
          simp only [traceHasFail] at h
          rcases h with h | h | h | h | h
          · exact absurd h (ho1 e)
          · obtain ⟨p, hp, hf⟩ := h
            have := driveListeners_fail_elim s3.listeners.length s3.listeners
              (by rw [h4]; exact hp) hf
            rw [h4] at this
            simp at this
          · obtain ⟨p, hp, hf⟩ := h
            have := drivePairs_fail_elim s3.handler (s3.listenersUpgrade ++ ups4).length
              (s3.listenersUpgrade ++ ups4) (by rw [h5]; exact hp) hf
            rw [h5] at this
            simp at this
          · obtain ⟨p, hp, hf⟩ := h
            have := drivePairs_fail_elim s3.handler s3.dialers.length s3.dialers
              (by rw [h6]; exact hp) hf
            rw [h6] at this
            simp at this
          · obtain ⟨p, hp, hf⟩ := h
            have := driveTasks_fail_elim ((s3.toProcess ++ acc5) ++ acc6).length
              ((s3.toProcess ++ acc5) ++ acc6) (by rw [h7]; exact hp) hf
            rw [h7] at this
            simp only [Option.some.injEq] at this
            rw [this]
        | none =>
          exfalso
          simp only [traceHasFail] at h
          rcases h with h | h | h | h | h
          · exact absurd h (ho1 e)
          · obtain ⟨p, hp, hf⟩ := h
            have := driveListeners_fail_elim s3.listeners.length s3.listeners
              (by rw [h4]; exact hp) hf
            rw [h4] at this
            simp at this
          · obtain ⟨p, hp, hf⟩ := h
            have := drivePairs_fail_elim s3.handler (s3.listenersUpgrade ++ ups4).length
              (s3.listenersUpgrade ++ ups4) (by rw [h5]; exact hp) hf
            rw [h5] at this
            simp at this
          · obtain ⟨p, hp, hf⟩ := h
            have := drivePairs_fail_elim s3.handler s3.dialers.length s3.dialers
              (by rw [h6]; exact hp) hf
            rw [h6] at this
            simp at this
          · obtain ⟨p, hp, hf⟩ := h
            have := driveTasks_fail_elim ((s3.toProcess ++ acc5) ++ acc6).length
              ((s3.toProcess ++ acc5) ++ acc6) (by rw [h7]; exact hp) hf
            rw [h7] at this
            simp at this

theorem stagesIntake_spec (s1 : SwarmState) (o1 : FutPoll (Output × Addr)) (cr : List HTask)
    (h : (stages4to7 (intake s1) o1 cr).result = PollResult.notReady) :
    (stages4to7 (intake s1) o1 cr).state.newListeners.queue = s1.newListeners.queue.drop 1 ∧
    (stages4to7 (intake s1) o1 cr).state.newDialers.queue = s1.newDialers.queue.drop 1 ∧
    (stages4to7 (intake s1) o1 cr).trace.listenerTrace.map Prod.fst
      = (s1.listeners ++ s1.newListeners.queue.take 1).reverse ∧
    (stages4to7 (intake s1) o1 cr).trace.dialerTrace.map Prod.fst
      = (s1.dialers ++ s1.newDialers.queue.take 1).reverse ∧
    (stages4to7 (intake s1) o1 cr).trace.upgradeTrace.map Prod.fst
      = (s1.listenersUpgrade ++ (stages4to7 (intake s1) o1 cr).trace.pushedUpgrades).reverse ∧
    (∃ a5 a6, (stages4to7 (intake s1) o1 cr).trace.created = cr ++ a5 ++ a6 ∧
      (stages4to7 (intake s1) o1 cr).trace.taskTrace.map Prod.fst
        = ((s1.toProcess ++ a5) ++ a6).reverse) := by
  have hsp := stages4to7_spec (intake s1) o1 cr h
  rw [intake_eq] at hsp ⊢
  dsimp only at hsp ⊢
  obtain ⟨-, hlt, hut, hdt, ⟨a5, a6, hcr, htt⟩, hnl, hnd⟩ := hsp
  refine ⟨?_, ?_, hlt, hdt, hut, a5, a6, hcr, htt⟩
  · rw [hnl]
  · rw [hnd]

theorem pollTr_spec (s : SwarmState) (h : (pollTr s).result = PollResult.notReady) :
    (pollTr s).state.newListeners.queue = s.newListeners.queue.drop 1 ∧
    (pollTr s).state.newDialers.queue = s.newDialers.queue.drop 1 ∧
    (pollTr s).trace.listenerTrace.map Prod.fst
      = (s.listeners ++ s.newListeners.queue.take 1).reverse ∧
    (pollTr s).trace.dialerTrace.map Prod.fst
      = (s.dialers ++ s.newDialers.queue.take 1).reverse ∧
    (pollTr s).trace.upgradeTrace.map Prod.fst
      = (s.listenersUpgrade ++ (pollTr s).trace.pushedUpgrades).reverse ∧
    (pollTr s).trace.taskTrace.map Prod.fst
      = (s.toProcess ++ (pollTr s).trace.created).reverse := by
  rcases h1 : pollFut s.nextIncoming with ⟨o1, ni'⟩
  cases o1 with
  | fail e =>
    unfold pollTr at h
    rw [h1] at h
    simp at h
  | ready pr =>
    obtain ⟨out, addr⟩ := pr
    unfold pollTr at h ⊢
    rw [h1] at h ⊢
    simp only at h ⊢
    obtain ⟨hq1, hq2, hlt, hdt, hut, a5, a6, hcr, htt⟩ := stagesIntake_spec _ _ _ h
    dsimp only at hq1 hq2 hlt hdt hut hcr htt
    refine ⟨hq1, hq2, hlt, hdt, hut, ?_⟩
    rw [htt, hcr]
    simp [List.append_assoc]
  | pending =>
    unfold pollTr at h ⊢
    rw [h1] at h ⊢
    simp only at h ⊢
    obtain ⟨hq1, hq2, hlt, hdt, hut, a5, a6, hcr, htt⟩ := stagesIntake_spec _ _ _ h
    dsimp only at hq1 hq2 hlt hdt hut hcr htt
    refine ⟨hq1, hq2, hlt, hdt, hut, ?_⟩
    rw [htt, hcr]
    simp [List.append_assoc]

theorem pollTr_never_ready (s : SwarmState) : (pollTr s).result ≠ PollResult.ready := by
  rcases h1 : pollFut s.nextIncoming with ⟨o1, ni'⟩
  have hst : ∀ (s3 : SwarmState) (o : FutPoll (Output × Addr)) (cr : List HTask),
      (stages4to7 s3 o cr).result ≠ PollResult.ready := by
    intro s3 o cr
    rcases h4 : driveListeners s3.listeners.length s3.listeners [] [] with ⟨e4, ls4, ups4, ltr4⟩
    unfold stages4to7
    rw [driveListeners_acc, h4]
    simp only [List.nil_append]
    cases e4 with
    | some e => simp
    | none =>
      rcases h5 : drivePairs s3.handler (s3.listenersUpgrade ++ ups4).length
          (s3.listenersUpgrade ++ ups4) [] [] with ⟨e5, ups5, acc5, utr5⟩
      simp only [h5]
      cases e5 with
      | some e => simp
      | none =>
        rcases h6 : drivePairs s3.handler s3.dialers.length s3.dialers [] []
          with ⟨e6, ds6, acc6, dtr6⟩
        simp only [h6]
        cases e6 with
        | some e => simp
        | none =>
          rcases h7 : driveTasks ((s3.toProcess ++ acc5) ++ acc6).length
              ((s3.toProcess ++ acc5) ++ acc6) [] with ⟨e7, tp7, ttr7⟩
          simp only [h7]
          cases e7 with
          | some e => simp
          | none => simp
  cases o1 with
  | fail e =>
    unfold pollTr
    rw [h1]
    simp
  | ready pr =>
    obtain ⟨out, addr⟩ := pr
    unfold pollTr
    rw [h1]
    simp only
    exact hst _ _ _
  | pending =>
    unfold pollTr
    rw [h1]
    simp only
    exact hst _ _ _

theorem pollTr_noError (s : SwarmState)
    (h : traceNoError (pollTr s).trace = true) :
    (pollTr s).result = PollResult.notReady := by
  rcases h1 : pollFut s.nextIncoming with ⟨o1, ni'⟩
  cases o1 with
  | fail e =>
    exfalso
    unfold pollTr at h
    rw [h1] at h
    simp [traceNoError, futFailB] at h
  | ready pr =>
    obtain ⟨out, addr⟩ := pr
    unfold pollTr at h ⊢
    rw [h1] at h ⊢
    simp only at h ⊢
    exact stages4to7_noError _ _ _ h
  | pending =>
    unfold pollTr at h ⊢
    rw [h1] at h ⊢
    simp only at h ⊢
    exact stages4to7_noError _ _ _ h

theorem pollTr_hasFail (s : SwarmState) (e : Err)
    (h : traceHasFail (pollTr s).trace e) :
    (pollTr s).result = PollResult.failed e := by
  rcases h1 : pollFut s.nextIncoming with ⟨o1, ni'⟩
  cases o1 with
  | fail e' =>
    unfold pollTr at h ⊢
    rw [h1] at h ⊢
    simp only [traceHasFail] at h
    dsimp only at h ⊢
    rcases h with h | h | h | h | h
    · simp only [FutPoll.fail.injEq] at h
      rw [h]
    · simp at h
    · simp at h
    · simp at h
    · simp at h
  | ready pr =>
    obtain ⟨out, addr⟩ := pr
    unfold pollTr at h ⊢
    rw [h1] at h ⊢
    simp only at h ⊢
    exact stages4to7_hasFail _ _ _ e (by intro e' hc; cases hc) h
  | pending =>
    unfold pollTr at h ⊢
    rw [h1] at h ⊢
    simp only at h ⊢
    exact stages4to7_hasFail _ _ _ e (by intro e' hc; cases hc) h

/-- A listener stream that is pending once, then yields one upgrade item
tagged `k` (used to tell queued listeners apart). -/
def exListener (k : Nat) : Listener := [.pending, .item ([], k)]

/-- Three listeners queued on the new-listeners channel before any poll. -/
def threeQueued : SwarmState :=
  { nextIncoming := [], incomingSupply := [],
    newListeners := ⟨[exListener 1, exListener 2, exListener 3], false⟩,
    newDialers := ⟨[], false⟩,
    listeners := [], listenersUpgrade := [], dialers := [], toProcess := [],
    handler := fun _ _ => [] }

/-- C1.  The claim fails on the code: `SwarmFuture::poll` polls each
submission receiver once per pass, so it moves at most **one** queued item
per channel per poll.  With three listeners queued before poll 1, after
two error-free polls the third is still sitting in the channel and is not
in `listeners` — it is not visible to the engine by poll 2. -/
theorem c1_counterexample :
    (pollIter 2 threeQueued).1 = [PollResult.notReady, PollResult.notReady] ∧
    exListener 3 ∈ (pollIter 2 threeQueued).2.newListeners.queue ∧
    exListener 3 ∉ (pollIter 2 threeQueued).2.listeners := by
  decide

/-- C1 (amended).  Each engine poll's intake stage moves exactly the head
of each submission queue into the corresponding collection — the rest of
the queue stays: after an error-free poll the queues have lost exactly
their first element, and the items polled in stages 4 and 6 are exactly
the stored ones plus that single intaken head per channel (so an item at
queue depth `i` before poll `n` becomes visible at poll `n + i`, not
necessarily by poll `n + 1`). -/
theorem c1_intake_one_item_per_poll (s : SwarmState)
    (h : (pollTr s).result = PollResult.notReady) :
    (pollTr s).state.newListeners.queue = s.newListeners.queue.drop 1 ∧
    (pollTr s).state.newDialers.queue = s.newDialers.queue.drop 1 ∧
    (pollTr s).trace.listenerTrace.map Prod.fst
      = (s.listeners ++ s.newListeners.queue.take 1).reverse ∧
    (pollTr s).trace.dialerTrace.map Prod.fst
      = (s.dialers ++ s.newDialers.queue.take 1).reverse := by
  obtain ⟨h1, h2, h3, h4, -, -⟩ := pollTr_spec s h
  exact ⟨h1, h2, h3, h4⟩

/-- C1 witness: the amended statement at the three-queued state. -/
theorem c1_witness :
    (pollTr threeQueued).state.newListeners.queue
      = threeQueued.newListeners.queue.drop 1 ∧
    (pollTr threeQueued).state.newDialers.queue
      = threeQueued.newDialers.queue.drop 1 ∧
    (pollTr threeQueued).trace.listenerTrace.map Prod.fst
      = (threeQueued.listeners ++ threeQueued.newListeners.queue.take 1).reverse ∧
    (pollTr threeQueued).trace.dialerTrace.map Prod.fst
      = (threeQueued.dialers ++ threeQueued.newDialers.queue.take 1).reverse :=
  c1_intake_one_item_per_poll threeQueued (by decide)

/-- A busy but error-free engine state: a pending-then-ready global
incoming, one queued listener, one queued dialer (senders dropped), one
stored listener, one mid-handshake upgrade and one running handler task. -/
def busyState : SwarmState :=
  { nextIncoming := [.pending, .ready (7, 3)], incomingSupply := [[]],
    newListeners := ⟨[[.item ([FutPoll.ready 5], 4)]], false⟩,
    newDialers := ⟨[([.pending, .ready 6], 9)], true⟩,
    listeners := [[.pending]], listenersUpgrade := [([.ready 8], 2)],
    dialers := [], toProcess := [[.pending, .ready ()]],
    handler := fun _ _ => [.pending, .ready ()] }

/-- C2.  As long as no polled sub-object reports an error, every engine
poll returns `NotReady`: over any number of polls the engine never
returns the ready/"done" value (the code's only non-error exit is
`Ok(Async::NotReady)`). -/
theorem c2_engine_never_done (k : Nat) (s : SwarmState)
    (h : ∀ j, j < k → traceNoError (pollTr (pollIter j s).2).trace = true) :
    (pollIter k s).1 = List.replicate k PollResult.notReady := by
  induction k generalizing s with
  | zero => simp [pollIter]
  | succ k ih =>
    have h0 : traceNoError (pollTr s).trace = true := by
      have := h 0 (by omega)
      simpa [pollIter] using this
    have hres := pollTr_noError s h0
    have hrest : ∀ j, j < k →
        traceNoError (pollTr (pollIter j (pollTr s).state).2).trace = true := by
      intro j hj
      have := h (j + 1) (by omega)
      simpa [pollIter] using this
    simp [pollIter, hres, ih (pollTr s).state hrest, List.replicate_succ]

/-- C2 witness: three error-free polls of the busy state, all `NotReady`. -/
theorem c2_witness :
    (pollIter 3 busyState).1 = List.replicate 3 PollResult.notReady :=
  c2_engine_never_done 3 busyState (by intro j hj; interval_cases j <;> decide)

/-- C3.  When any sub-object polled during a pass (the next-incoming
future, a listener accept-stream, a listener-upgrade future, a dial
future or a handler task) reports an error, that very pass of
`SwarmFuture::poll` returns exactly that error to the driver. -/
theorem c3_error_propagation (s : SwarmState) (e : Err)
    (h : traceHasFail (pollTr s).trace e) :
    (pollTr s).result = PollResult.failed e :=
  pollTr_hasFail s e h

/-- A state whose only activity is a dial future that fails with error 5. -/
def failingDialState : SwarmState :=
  { nextIncoming := [], incomingSupply := [],
    newListeners := ⟨[], true⟩, newDialers := ⟨[], true⟩,
    listeners := [], listenersUpgrade := [],
    dialers := [([.fail 5], 1)], toProcess := [],
    handler := fun _ _ => [] }

/-- C3 witness: the failing dial's error 5 is the poll's result. -/
theorem c3_witness : (pollTr failingDialState).result = PollResult.failed 5 :=
  c3_error_propagation failingDialState 5
    (by simp only [traceHasFail]; decide)

/-- Global incoming ready (creating a handler task) together with a dial
future that fails in the same pass. -/
def taskThenFailState : SwarmState :=
  { nextIncoming := [.ready (7, 3)], incomingSupply := [],
    newListeners := ⟨[], false⟩, newDialers := ⟨[], false⟩,
    listeners := [], listenersUpgrade := [],
    dialers := [([.fail 5], 9)], toProcess := [],
    handler := fun _ _ => [.ready ()] }

/-- C4.  The claim fails on the code: when a later stage errors, the pass
short-circuits before stage 7, so a handler task created earlier in that
same poll is *not* polled before the poll returns.  Concretely, stage 1
creates a task, the dial stage fails, and the task trace of the pass is
empty. -/
theorem c4_counterexample :
    (pollTr taskThenFailState).trace.created = [[FutPoll.ready ()]] ∧
    (pollTr taskThenFailState).trace.taskTrace = [] ∧
    (pollTr taskThenFailState).result = PollResult.failed 5 := by
  decide

/-- C4 (amended).  In a pass that completes without error (returns
not-ready), every handler task created during the pass — from the
next-incoming future, a completed listener upgrade or a completed dial —
is polled in stage 7 of that same pass, not first at the next poll. -/
theorem c4_created_task_polled_same_pass (s : SwarmState)
    (h : (pollTr s).result = PollResult.notReady) :
    ∀ t ∈ (pollTr s).trace.created,
      t ∈ (pollTr s).trace.taskTrace.map Prod.fst := by
  intro t ht
  have sp := (pollTr_spec s h).2.2.2.2.2
  rw [sp]
  simp only [List.mem_reverse, List.mem_append]
  exact Or.inr ht

/-- A state where stage 1 creates a handler task and nothing errors. -/
def taskCreatedState : SwarmState :=
  { nextIncoming := [.ready (7, 3)], incomingSupply := [],
    newListeners := ⟨[], false⟩, newDialers := ⟨[], false⟩,
    listeners := [], listenersUpgrade := [], dialers := [], toProcess := [],
    handler := fun _ _ => [.pending, .ready ()] }

/-- C4 witness: the amended statement at a state that creates one task —
the created task shows up among the tasks polled in the same pass. -/
theorem c4_witness :
    ([FutPoll.pending, FutPoll.ready ()] : HTask)
      ∈ (pollTr taskCreatedState).trace.taskTrace.map Prod.fst :=
  c4_created_task_polled_same_pass taskCreatedState (by decide)
    [FutPoll.pending, FutPoll.ready ()] (by decide)

/-- A stored listener that stays pending, stored after (hence polled
before, by the reverse iteration) a listener that fails at once. -/
def skipOnErrorState : SwarmState :=
  { nextIncoming := [], incomingSupply := [],
    newListeners := ⟨[], false⟩, newDialers := ⟨[], false⟩,
    listeners := [[.pending, .pending], [.fail 4]], listenersUpgrade := [],
    dialers := [], toProcess := [],
    handler := fun _ _ => [] }

/-- C5.  The claim fails on the code: an erroring item makes the stage
loop return at once, so an item stored at the start of the pass can be
skipped.  Here the listener at index 1 fails (it is polled first, in
reverse index order), and the listener at index 0 — stored at the start
of the pass — is never polled during the pass. -/
theorem c5_counterexample :
    ([StrmPoll.pending, StrmPoll.pending] : Listener) ∈ skipOnErrorState.listeners ∧
    (∀ p ∈ (pollTr skipOnErrorState).trace.listenerTrace,
      p.1 ≠ ([StrmPoll.pending, StrmPoll.pending] : Listener)) ∧
    (pollTr skipOnErrorState).result = PollResult.failed 4 := by
  decide

/-- C5 (amended).  In a pass that completes without error, each stage
polls exactly the items present when the stage begins, each exactly once
(the trace of polled items is the reverse of that stage's vector): the
stored listeners plus the single intaken one, the stored upgrades plus
those extracted in stage 4, the stored dialers plus the single intaken
one, and the stored tasks plus those created this pass.  The
swap-remove/re-push iteration neither skips nor re-polls an item. -/
theorem c5_each_stage_polls_each_item_once (s : SwarmState)
    (h : (pollTr s).result = PollResult.notReady) :
    (pollTr s).trace.listenerTrace.map Prod.fst
      = (s.listeners ++ s.newListeners.queue.take 1).reverse ∧
    (pollTr s).trace.upgradeTrace.map Prod.fst
      = (s.listenersUpgrade ++ (pollTr s).trace.pushedUpgrades).reverse ∧
    (pollTr s).trace.dialerTrace.map Prod.fst
      = (s.dialers ++ s.newDialers.queue.take 1).reverse ∧
    (pollTr s).trace.taskTrace.map Prod.fst
      = (s.toProcess ++ (pollTr s).trace.created).reverse := by
  obtain ⟨-, -, h3, h4, h5, h6⟩ := pollTr_spec s h
  exact ⟨h3, h5, h4, h6⟩

/-- C5 witness: the amended statement at the busy state. -/
theorem c5_witness :
    (pollTr busyState).trace.listenerTrace.map Prod.fst
      = (busyState.listeners ++ busyState.newListeners.queue.take 1).reverse ∧
    (pollTr busyState).trace.upgradeTrace.map Prod.fst
      = (busyState.listenersUpgrade ++ (pollTr busyState).trace.pushedUpgrades).reverse ∧
    (pollTr busyState).trace.dialerTrace.map Prod.fst
      = (busyState.dialers ++ busyState.newDialers.queue.take 1).reverse ∧
    (pollTr busyState).trace.taskTrace.map Prod.fst
      = (busyState.toProcess ++ (pollTr busyState).trace.created).reverse :=
  c5_each_stage_polls_each_item_once busyState (by decide)

/-- C9.  `SwarmController::dial` returns `Ok(())` exactly when
`upgraded.dial` accepts the address; a rejected address comes back as
`Err` with the same address and nothing changes; on success the pending
dial pair is submitted to `new_dialers`, except that a closed receiver
silently drops it (the dial still reports `Ok(())`). -/
theorem c9_controller_dial (c : Controller) (a : Addr) :
    ((c.dial a).1 = Except.ok () ↔ (c.dialFn a).isSome) ∧
    (c.dialFn a = none → (c.dial a).1 = Except.error a ∧ (c.dial a).2 = c) ∧
    ((c.dial a).2.newDialers.closed = c.newDialers.closed) ∧
    (c.newDialers.closed = true → (c.dial a).2.newDialers = c.newDialers) ∧
    (∀ d, c.dialFn a = some d → c.newDialers.closed = false →
      (c.dial a).2.newDialers.queue = c.newDialers.queue ++ [(d, a)]) := by
  unfold Controller.dial chanSend
  cases hd : c.dialFn a with
  | none => simp
  | some d =>
    cases hc : c.newDialers.closed with
    | false => simp [hc]
    | true => simp [hc]

/-- A controller that accepts even addresses and whose engine is gone
(receiver closed). -/
def closedController : Controller :=
  { dialFn := fun a => if a % 2 = 0 then some [FutPoll.ready a] else none,
    newDialers := ⟨[], true⟩ }

/-- C9 witness: the dial contract at a concrete controller and address. -/
theorem c9_witness :
    (((closedController.dial 4).1 = Except.ok ())
        ↔ (closedController.dialFn 4).isSome) ∧
    (closedController.dialFn 4 = none →
      (closedController.dial 4).1 = Except.error 4 ∧
      (closedController.dial 4).2 = closedController) ∧
    ((closedController.dial 4).2.newDialers.closed
        = closedController.newDialers.closed) ∧
    (closedController.newDialers.closed = true →
      (closedController.dial 4).2.newDialers = closedController.newDialers) ∧
    (∀ d, closedController.dialFn 4 = some d →
      closedController.newDialers.closed = false →
      (closedController.dial 4).2.newDialers.queue
        = closedController.newDialers.queue ++ [(d, 4)]) :=
  c9_controller_dial closedController 4

end Swarm

namespace Tcp

/-- C6.  The claim fails on the code: `multiaddr_to_socketaddr` inspects
only `protocols[0]` and `protocols[1]`, so an address that merely *starts*
with ip4/tcp — here `/ip4/127.0.0.1/tcp/1234/udp/5678`, which is not of
the form `/ip4/<a.b.c.d>/tcp/<port>` — is accepted by `dial` (the
trailing component silently ignored) instead of being rejected with the
address returned. -/
theorem c6_counterexample :
    TcpConfig.dial [MProto.ip4 127 0 0 1, MProto.tcp 1234, MProto.udp 5678]
      = some (Except.ok ⟨IpAddr.v4 127 0 0 1, 1234⟩) ∧
    TcpConfig.dial [MProto.ip4 127 0 0 1, MProto.tcp 1234, MProto.udp 5678]
      ≠ some (Except.error [MProto.ip4 127 0 0 1, MProto.tcp 1234, MProto.udp 5678]) := by
  decide

/-- C6 (amended).  The parser maps `/ip4/<a.b.c.d>/tcp/<port>` to the
IPv4 socket address and `/ip6/<16 bytes>/tcp/<port>` to the IPv6 one; an
address of at least two components whose *first two* protocols are not
ip4/tcp or ip6/tcp is rejected by `dial` and `listen_on` with the same
address returned unmodified.  (Addresses with correct first two
components but extra trailing components are accepted, the extras
ignored; an address of fewer than two components makes the Rust indexing
panic rather than return an error.) -/
theorem c6_address_parsing :
    (∀ a b c d p : Nat, a < 256 → b < 256 → c < 256 → d < 256 → p < 65536 →
      TcpConfig.dial [MProto.ip4 a b c d, MProto.tcp p]
        = some (Except.ok ⟨IpAddr.v4 a b c d, p⟩)) ∧
    (∀ (bs : List Nat) (p : Nat), bs.length = 16 → p < 65536 →
      TcpConfig.dial [MProto.ip6 bs, MProto.tcp p]
        = some (Except.ok ⟨IpAddr.v6 bs, p⟩)) ∧
    (∀ (p0 p1 : MProto) (rest : Multiaddr),
      ¬(p0.tag = ProtoTag.ip4 ∧ p1.tag = ProtoTag.tcp) →
      ¬(p0.tag = ProtoTag.ip6 ∧ p1.tag = ProtoTag.tcp) →
      TcpConfig.dial (p0 :: p1 :: rest) = some (Except.error (p0 :: p1 :: rest)) ∧
      ∀ bind, TcpConfig.listenOn bind (p0 :: p1 :: rest)
        = some (Except.error (p0 :: p1 :: rest))) := by
  refine ⟨?_, ?_, ?_⟩
  · intro a b c d p _ _ _ _ _
    simp [TcpConfig.dial, multiaddrToSocketaddr, protocolsOf, asSlice,
      MProto.encode, MProto.tag, List.getD]
    omega
  · intro bs p hlen _
    simp only [TcpConfig.dial, multiaddrToSocketaddr, protocolsOf, asSlice,
      MProto.encode, MProto.tag, List.map_cons, List.map_nil, List.flatten,
      List.append_nil, List.get?]
    simp only [List.cons_append, List.nil_append]
    have hdrop : ((41 :: (bs ++ [6, p / 256, p % 256])).drop 1).take 16 = bs := by
      simp only [List.drop_succ_cons, List.drop_zero]
      rw [← hlen, List.take_left]
    have hport18 : (41 :: (bs ++ [6, p / 256, p % 256])).getD 18 0 = p / 256 := by
      simp only [List.getD, List.get?]
      rw [List.get?_append_right (by omega)]
      simp [hlen]
    have hport19 : (41 :: (bs ++ [6, p / 256, p % 256])).getD 19 0 = p % 256 := by
      simp only [List.getD, List.get?]
      rw [List.get?_append_right (by omega)]
      simp [hlen]
    rw [hdrop, hport18, hport19]
    simp
    omega
  · intro p0 p1 rest h4 h6
    constructor
    · cases p0 <;> cases p1 <;>
        simp_all [TcpConfig.dial, multiaddrToSocketaddr, protocolsOf, MProto.tag]
    · intro bind
      cases p0 <;> cases p1 <;>
        simp_all [TcpConfig.listenOn, multiaddrToSocketaddr, protocolsOf, MProto.tag]

/-- C6 witness: both accepted shapes and one rejected address, concretely. -/
theorem c6_witness :
    TcpConfig.dial [MProto.ip4 127 0 0 1, MProto.tcp 12345]
      = some (Except.ok ⟨IpAddr.v4 127 0 0 1, 12345⟩) ∧
    TcpConfig.dial [MProto.ip6 [0,0,0,0,0,0,0,0,0,0,0,0,0,0,0,1], MProto.tcp 12345]
      = some (Except.ok ⟨IpAddr.v6 [0,0,0,0,0,0,0,0,0,0,0,0,0,0,0,1], 12345⟩) ∧
    TcpConfig.dial [MProto.ip4 127 0 0 1, MProto.udp 1234]
      = some (Except.error [MProto.ip4 127 0 0 1, MProto.udp 1234]) :=
  ⟨c6_address_parsing.1 127 0 0 1 12345 (by decide) (by decide) (by decide)
      (by decide) (by decide),
   c6_address_parsing.2.1 [0,0,0,0,0,0,0,0,0,0,0,0,0,0,0,1] 12345 (by decide) (by decide),
   (c6_address_parsing.2.2 (MProto.ip4 127 0 0 1) (MProto.udp 1234) []
      (by decide) (by decide)).1⟩

/-- C10.  When the address parses but the OS-level bind fails,
`TcpConfig::listen_on` still returns `Ok`: the accept-stream it hands
back delivers the bind error on its first poll, and the multiaddr
returned alongside is the original input address, not a post-binding
rewritten one. -/
theorem c10_listen_on_bind_failure (bind : SocketAddr → Except IoErr BoundListener)
    (addr : Multiaddr) (sa : SocketAddr) (e : IoErr)
    (hconv : multiaddrToSocketaddr addr = some (Except.ok sa))
    (hbind : bind sa = Except.error e) :
    TcpConfig.listenOn bind addr
      = some (Except.ok (ListenStream.bindFailed e, addr)) ∧
    (ListenStream.bindFailed e).firstPoll = ListenPoll.errored e := by
  constructor
  · simp [TcpConfig.listenOn, hconv, hbind]
  · rfl

/-- C10 witness: a bind oracle that always fails with error 7. -/
theorem c10_witness :
    TcpConfig.listenOn (fun _ => Except.error 7) [MProto.ip4 127 0 0 1, MProto.tcp 8080]
      = some (Except.ok (ListenStream.bindFailed 7,
                         [MProto.ip4 127 0 0 1, MProto.tcp 8080])) ∧
    (ListenStream.bindFailed 7).firstPoll = ListenPoll.errored 7 :=
  c10_listen_on_bind_failure (fun _ => Except.error 7)
    [MProto.ip4 127 0 0 1, MProto.tcp 8080] ⟨IpAddr.v4 127 0 0 1, 8080⟩ 7
    (by decide) rfl

end Tcp

namespace Proto

theorem varint_cons (n : Nat) : ∃ b t, varint n = b :: t := by
  unfold varint
  by_cases h : n < 128
  · simp [h]
  · simp [h]

theorem readVarint_varint (n : Nat) (rest : List Nat) :
    readVarint (varint n ++ rest) = some (n, rest) := by
  induction n using Nat.strong_induction_on with
  | _ n ih =>
    unfold varint
    by_cases h : n < 128
    · simp [h, readVarint]
    · have hrec := ih (n / 128) (Nat.div_lt_self (by omega) (by omega))
      simp only [dif_neg h, List.cons_append, readVarint]
      have hb : ¬(n % 128 + 128 < 128) := by omega
      simp only [if_neg hb, hrec]
      have : n % 128 + 128 * (n / 128) = n := by omega
      simp [this]

theorem readLenPayload_spec (p rest : List Nat) :
    readLenPayload (varint p.length ++ (p ++ rest)) = some (p, rest) := by
  unfold readLenPayload
  rw [readVarint_varint]
  simp [List.take_left, List.drop_left]

end Proto

namespace Proto

theorem leVal_fixed32 (n : Nat) (h : n < 2 ^ 32) : leVal (fixed32Enc n) = n := by
  simp only [fixed32Enc, leVal]
  omega

theorem leVal_fixed64 (n : Nat) (h : n < 2 ^ 64) : leVal (fixed64Enc n) = n := by
  simp only [fixed64Enc, leVal]
  omega

theorem readField_known (i : Nat) (p : List Nat) (r : Record) (rest : List Nat)
    (h1 : 1 ≤ i) (h5 : i ≤ 5) :
    readField r (writeKnown i (some p) ++ rest) = some (setKnown i p r, rest) := by
  unfold writeKnown readField
  rw [List.append_assoc, List.append_assoc, readVarint_varint]
  have hdiv : (i * 8 + 2) / 8 = i := by omega
  have hmod : (i * 8 + 2) % 8 = 2 := by omega
  simp only [hdiv, hmod]
  rw [if_neg (by omega), if_pos h5, if_pos trivial, ← List.append_assoc,
    List.append_assoc, readLenPayload_spec]

theorem readField_unknown (f : Nat) (v : UnknownValue) (r : Record) (rest : List Nat)
    (h6 : 6 ≤ f)
    (h32 : ∀ n, v = UnknownValue.fixed32V n → n < 2 ^ 32)
    (h64 : ∀ n, v = UnknownValue.fixed64V n → n < 2 ^ 64) :
    readField r (encodeUnknown (f, v) ++ rest)
      = some ({ r with unknownFields := r.unknownFields ++ [(f, v)] }, rest) := by
  cases v with
  | varintV n =>
    unfold encodeUnknown readField
    rw [List.append_assoc, readVarint_varint]
    have hdiv : (f * 8 + 0) / 8 = f := by omega
    have hmod : (f * 8 + 0) % 8 = 0 := by omega
    simp only [hdiv, hmod]
    rw [if_neg (by omega), if_neg (by omega), if_pos trivial, readVarint_varint]
  | fixed64V n =>
    unfold encodeUnknown readField
    rw [List.append_assoc, readVarint_varint]
    have hdiv : (f * 8 + 1) / 8 = f := by omega
    have hmod : (f * 8 + 1) % 8 = 1 := by omega
    simp only [hdiv, hmod]
    rw [if_neg (by omega), if_neg (by omega), if_neg (by omega), if_pos trivial]
    unfold readBytesN
    have hlen : (fixed64Enc n).length = 8 := by simp [fixed64Enc]
    rw [if_pos (by simp [hlen])]
    rw [← hlen, List.take_left, List.drop_left]
    simp [leVal_fixed64 n (h64 n rfl)]
  | lengthDelimited p =>
    unfold encodeUnknown readField
    rw [List.append_assoc, List.append_assoc, readVarint_varint]
    have hdiv : (f * 8 + 2) / 8 = f := by omega
    have hmod : (f * 8 + 2) % 8 = 2 := by omega
    simp only [hdiv, hmod]
    rw [if_neg (by omega), if_neg (by omega), if_neg (by omega), if_neg (by omega),
      if_pos trivial, ← List.append_assoc, List.append_assoc, readLenPayload_spec]
  | fixed32V n =>
    unfold encodeUnknown readField
    rw [List.append_assoc, readVarint_varint]
    have hdiv : (f * 8 + 5) / 8 = f := by omega
    have hmod : (f * 8 + 5) % 8 = 5 := by omega
    simp only [hdiv, hmod]
    rw [if_neg (by omega), if_neg (by omega), if_neg (by omega), if_neg (by omega),
      if_neg (by omega), if_pos trivial]
    unfold readBytesN
    have hlen : (fixed32Enc n).length = 4 := by simp [fixed32Enc]
    rw [if_pos (by simp [hlen])]
    rw [← hlen, List.take_left, List.drop_left]
    simp [leVal_fixed32 n (h32 n rfl)]

theorem mergeFromAux_nil (r : Record) : mergeFromAux r [] = some r := by
  unfold mergeFromAux
  rfl

theorem mergeFromAux_step {r : Record} {bs : List Nat} {r' : Record} {bs' : List Nat}
    (h : readField r bs = some (r', bs')) :
    mergeFromAux r bs = mergeFromAux r' bs' := by
  cases bs with
  | nil => simp [readField, readVarint] at h
  | cons b rest =>
    rw [mergeFromAux]
    split
    · next heq =>
      rw [heq] at h
      simp at h
    · next r2 bs2 heq =>
      rw [heq] at h
      simp only [Option.some.injEq, Prod.mk.injEq] at h
      obtain ⟨hr, hb⟩ := h
      rw [hr, hb]

end Proto

namespace Proto

theorem writeKnown_none (i : Nat) : writeKnown i none = [] := rfl

theorem merge_key (p : List Nat) (r : Record) (rest : List Nat) :
    mergeFromAux r (writeKnown 1 (some p) ++ rest)
      = mergeFromAux { r with key := some p } rest :=
  mergeFromAux_step (readField_known 1 p r rest (by omega) (by omega))

theorem merge_value (p : List Nat) (r : Record) (rest : List Nat) :
    mergeFromAux r (writeKnown 2 (some p) ++ rest)
      = mergeFromAux { r with value := some p } rest :=
  mergeFromAux_step (readField_known 2 p r rest (by omega) (by omega))

theorem merge_author (p : List Nat) (r : Record) (rest : List Nat) :
    mergeFromAux r (writeKnown 3 (some p) ++ rest)
      = mergeFromAux { r with author := some p } rest :=
  mergeFromAux_step (readField_known 3 p r rest (by omega) (by omega))

theorem merge_signature (p : List Nat) (r : Record) (rest : List Nat) :
    mergeFromAux r (writeKnown 4 (some p) ++ rest)
      = mergeFromAux { r with signature := some p } rest :=
  mergeFromAux_step (readField_known 4 p r rest (by omega) (by omega))

theorem merge_timeReceived (p : List Nat) (r : Record) (rest : List Nat) :
    mergeFromAux r (writeKnown 5 (some p) ++ rest)
      = mergeFromAux { r with timeReceived := some p } rest :=
  mergeFromAux_step (readField_known 5 p r rest (by omega) (by omega))

theorem merge_key_last (p : List Nat) (r : Record) :
    mergeFromAux r (writeKnown 1 (some p)) = some { r with key := some p } := by
  have h := merge_key p r []
  rw [List.append_nil] at h
  rw [h, mergeFromAux_nil]

theorem merge_value_last (p : List Nat) (r : Record) :
    mergeFromAux r (writeKnown 2 (some p)) = some { r with value := some p } := by
  have h := merge_value p r []
  rw [List.append_nil] at h
  rw [h, mergeFromAux_nil]

theorem merge_author_last (p : List Nat) (r : Record) :
    mergeFromAux r (writeKnown 3 (some p)) = some { r with author := some p } := by
  have h := merge_author p r []
  rw [List.append_nil] at h
  rw [h, mergeFromAux_nil]

theorem merge_signature_last (p : List Nat) (r : Record) :
    mergeFromAux r (writeKnown 4 (some p)) = some { r with signature := some p } := by
  have h := merge_signature p r []
  rw [List.append_nil] at h
  rw [h, mergeFromAux_nil]

theorem merge_timeReceived_last (p : List Nat) (r : Record) :
    mergeFromAux r (writeKnown 5 (some p)) = some { r with timeReceived := some p } := by
  have h := merge_timeReceived p r []
  rw [List.append_nil] at h
  rw [h, mergeFromAux_nil]

/-- C7.  For every record value with any subset of the five fields set
(and no preserved unknown fields), decoding the bytes produced by
encoding it gives back an equal record: `decode(encode(r)) == r`. -/
theorem c7_record_roundtrip (r : Record) (h : r.unknownFields = []) :
    decodeRecord r.writeTo = some r := by
  obtain ⟨k, v, a, sg, t, u⟩ := r
  simp only at h
  subst h
  unfold decodeRecord Record.writeTo
  cases k <;> cases v <;> cases a <;> cases sg <;> cases t <;>
    simp [writeKnown_none, merge_key, merge_value, merge_author, merge_signature,
      merge_timeReceived, merge_key_last, merge_value_last, merge_author_last,
      merge_signature_last, merge_timeReceived_last, mergeFromAux_nil, Record.new,
      List.append_assoc]

/-- C7 witness: the five-field example of the spec's scenario 5 —
`{key:"k", value:0xDEAD, author:"a", signature:0xBEEF, time_received:"t"}`
— decodes back from its encoding. -/
theorem c7_witness :
    decodeRecord (Record.writeTo
      { key := some [107], value := some [222, 173], author := some [97],
        signature := some [190, 239], timeReceived := some [116],
        unknownFields := [] })
      = some { key := some [107], value := some [222, 173], author := some [97],
               signature := some [190, 239], timeReceived := some [116],
               unknownFields := [] } :=
  c7_record_roundtrip
    { key := some [107], value := some [222, 173], author := some [97],
      signature := some [190, 239], timeReceived := some [116],
      unknownFields := [] } rfl

end Proto

namespace Proto

/-- The serialization of a list of wire fields in order: the general shape
of a buffer `merge_from` can read (each known field carried
length-delimited, unknowns with any wire type). -/
def serializeFields (fs : List (Nat × UnknownValue)) : List Nat :=
  (fs.map encodeUnknown).flatten

/-- How one wire field changes the record being merged, mirroring
`merge_from`'s dispatch: numbers 1-5 set the known field, larger numbers
append to the unknown-field side channel. -/
def applyField (r : Record) (f : Nat × UnknownValue) : Record :=
  if f.1 = 0 then r
  else if f.1 ≤ 5 then
    match f.2 with
    | UnknownValue.lengthDelimited p => setKnown f.1 p r
    | _ => r
  else { r with unknownFields := r.unknownFields ++ [f] }

/-- The record a buffer of wire fields decodes to. -/
def recordOfFields (fs : List (Nat × UnknownValue)) : Record :=
  fs.foldl applyField Record.new

/-- A wire field `merge_from` accepts: a nonzero number, known numbers
length-delimited, fixed values within their 32/64-bit range. -/
def goodField (f : Nat × UnknownValue) : Prop :=
  1 ≤ f.1 ∧
  (f.1 ≤ 5 → ∃ p, f.2 = UnknownValue.lengthDelimited p) ∧
  (∀ n, f.2 = UnknownValue.fixed32V n → n < 2 ^ 32) ∧
  (∀ n, f.2 = UnknownValue.fixed64V n → n < 2 ^ 64)

theorem setKnown_unknownFields (i : Nat) (p : List Nat) (r : Record) :
    (setKnown i p r).unknownFields = r.unknownFields := by
  match i with
  | 0 => rfl
  | 1 => rfl
  | 2 => rfl
  | 3 => rfl
  | 4 => rfl
  | n + 5 => rfl

theorem mergeFromAux_serialize (fs : List (Nat × UnknownValue)) :
    ∀ r : Record, (∀ f ∈ fs, goodField f) →
      mergeFromAux r (serializeFields fs) = some (fs.foldl applyField r) := by
  induction fs with
  | nil =>
    intro r _
    simp [serializeFields, mergeFromAux_nil]
  | cons f fs ih =>
    intro r hgood
    obtain ⟨f1, f2⟩ := f
    obtain ⟨h1, hld, h32, h64⟩ := hgood (f1, f2) (by simp)
    have hser : serializeFields ((f1, f2) :: fs)
        = encodeUnknown (f1, f2) ++ serializeFields fs := by
      simp [serializeFields]
    rw [hser]
    simp only [List.foldl_cons]
    by_cases h5 : f1 ≤ 5
    · obtain ⟨p, hp⟩ := hld h5
      subst hp
      have henc : encodeUnknown (f1, UnknownValue.lengthDelimited p)
          = writeKnown f1 (some p) := rfl
      rw [henc, mergeFromAux_step (readField_known f1 p r _ h1 h5),
        ih _ (fun f hf => hgood f (by simp [hf]))]
      have happ : applyField r (f1, UnknownValue.lengthDelimited p)
          = setKnown f1 p r := by
        simp [applyField, if_neg (by omega : ¬ f1 = 0), if_pos h5]
      rw [happ]
    · rw [mergeFromAux_step (readField_unknown f1 f2 r _ (by omega) h32 h64),
        ih _ (fun f hf => hgood f (by simp [hf]))]
      have happ : applyField r (f1, f2)
          = { r with unknownFields := r.unknownFields ++ [(f1, f2)] } := by
        simp [applyField, if_neg (by omega : ¬ f1 = 0), if_neg h5]
      rw [happ]

theorem foldl_applyField_unknown (fs : List (Nat × UnknownValue)) :
    ∀ r : Record, (∀ f ∈ fs, goodField f) →
      (fs.foldl applyField r).unknownFields
        = r.unknownFields ++ fs.filter (fun f => 5 < f.1) := by
  induction fs with
  | nil =>
    intro r _
    simp
  | cons f fs ih =>
    intro r hgood
    obtain ⟨f1, f2⟩ := f
    obtain ⟨h1, hld, h32, h64⟩ := hgood (f1, f2) (by simp)
    simp only [List.foldl_cons]
    rw [ih _ (fun f hf => hgood f (by simp [hf]))]
    by_cases h5 : f1 ≤ 5
    · obtain ⟨p, hp⟩ := hld h5
      subst hp
      have happ : applyField r (f1, UnknownValue.lengthDelimited p)
          = setKnown f1 p r := by
        simp [applyField, if_neg (by omega : ¬ f1 = 0), if_pos h5]
      rw [happ, setKnown_unknownFields]
      have hfilter : ¬ 5 < f1 := by omega
      simp [List.filter_cons, hfilter]
    · have happ : applyField r (f1, f2)
          = { r with unknownFields := r.unknownFields ++ [(f1, f2)] } := by
        simp [applyField, if_neg (by omega : ¬ f1 = 0), if_neg h5]
      rw [happ]
      have hfilter : 5 < f1 := by omega
      simp [List.filter_cons, hfilter]

/-- C8.  For every wire buffer made of well-formed fields, some with
numbers outside 1..5, decoding succeeds, records exactly the unknown
fields (in order) in the preserved side channel, and re-encoding emits
their original bytes verbatim — the serialization of exactly those
fields, in the same order — after the known fields. -/
theorem c8_unknown_field_preservation (fs : List (Nat × UnknownValue))
    (hgood : ∀ f ∈ fs, goodField f) :
    decodeRecord (serializeFields fs) = some (recordOfFields fs) ∧
    (recordOfFields fs).unknownFields = fs.filter (fun f => 5 < f.1) ∧
    ∃ pre, (recordOfFields fs).writeTo
      = pre ++ serializeFields (fs.filter (fun f => 5 < f.1)) := by
  have hu : (recordOfFields fs).unknownFields = fs.filter (fun f => 5 < f.1) := by
    have := foldl_applyField_unknown fs Record.new hgood
    simpa [recordOfFields, Record.new] using this
  refine ⟨mergeFromAux_serialize fs Record.new hgood, hu, ?_⟩
  refine ⟨writeKnown 1 (recordOfFields fs).key ++ writeKnown 2 (recordOfFields fs).value
    ++ writeKnown 3 (recordOfFields fs).author
    ++ writeKnown 4 (recordOfFields fs).signature
    ++ writeKnown 5 (recordOfFields fs).timeReceived, ?_⟩
  unfold Record.writeTo serializeFields
  rw [hu]

/-- C8 witness: the spec's scenario 6 — a buffer with field 1 = "k" and
field 99 = varint 42 decodes with field 99 preserved and re-emitted. -/
theorem c8_witness :
    decodeRecord (serializeFields
        [(1, UnknownValue.lengthDelimited [107]), (99, UnknownValue.varintV 42)])
      = some (recordOfFields
        [(1, UnknownValue.lengthDelimited [107]), (99, UnknownValue.varintV 42)]) ∧
    (recordOfFields
        [(1, UnknownValue.lengthDelimited [107]),
         (99, UnknownValue.varintV 42)]).unknownFields
      = List.filter (fun f => 5 < f.1)
          [(1, UnknownValue.lengthDelimited [107]), (99, UnknownValue.varintV 42)] ∧
    ∃ pre, (recordOfFields
        [(1, UnknownValue.lengthDelimited [107]),
         (99, UnknownValue.varintV 42)]).writeTo
      = pre ++ serializeFields (List.filter (fun f => 5 < f.1)
          [(1, UnknownValue.lengthDelimited [107]), (99, UnknownValue.varintV 42)]) :=
  c8_unknown_field_preservation
    [(1, UnknownValue.lengthDelimited [107]), (99, UnknownValue.varintV 42)]
    (by
      intro f hf
      simp only [List.mem_cons, List.not_mem_nil, or_false] at hf
      rcases hf with rfl | rfl
      · refine ⟨by omega, fun _ => ⟨[107], rfl⟩, ?_, ?_⟩ <;> intro n h <;> simp at h
      · refine ⟨by omega, fun h5 => absurd h5 (by omega), ?_, ?_⟩ <;>
          intro n h <;> simp at h)

end Proto
